import Mathlib

/-!
Shallow embedding of libfq's result/parameter marshalling engine
(`src/libfq.c`), covering: the scaled-integer parameter encode path of
`_FQexecParams` (types `SQL_SHORT` / `SQL_LONG` / `SQL_INT64`), the datum
decode path `_FQformatDatum`, the `RDB$DB_KEY` helpers `_FQparseDbKey` /
`_FQdeparseDbKey`, the boolean parameter encode, the result accessors
(`FQgetvalue`, `FQgetisnull`, ...), the output-descriptor negotiation and
the transaction lifecycle of `_FQexec`, and the connection construction of
`FQconnectdbParams`.

Machine integers are modelled as `Int` with explicit wrapping where the C
code casts; C strings are `List Char`; C byte buffers are `List Nat`.
C's truncating division/modulus are `Int.tdiv` / `Int.tmod`.
-/

/- ====================================================================
   Character and digit utilities
   ==================================================================== -/

/-- Decimal digit predicate, as used by `sscanf`'s `%d`-family conversions. -/
def isDigitB (c : Char) : Bool := 48 ≤ c.toNat && c.toNat ≤ 57

/-- Numeric value of a decimal digit character. -/
def charVal (c : Char) : Nat := c.toNat - 48

/-- Value of a digit run, most significant first. -/
def digitsToNat (l : List Char) : Nat :=
  l.foldl (fun a c => 10 * a + charVal c) 0

/-- Decimal digit character for `n < 10` (used to model `printf` rendering). -/
def digitChar10 (n : Nat) : Char :=
  match n with
  | 0 => '0' | 1 => '1' | 2 => '2' | 3 => '3' | 4 => '4'
  | 5 => '5' | 6 => '6' | 7 => '7' | 8 => '8' | _ => '9'

/-- Fuel-driven digit renderer (structural recursion so that concrete
values reduce); `fuel > n` always suffices since `n` shrinks by a factor
of ten per step. -/
def natToDigitsAux : Nat → Nat → List Char → List Char
  | 0, _, acc => acc
  | fuel + 1, n, acc =>
    if n < 10 then digitChar10 n :: acc
    else natToDigitsAux fuel (n / 10) (digitChar10 (n % 10) :: acc)

/-- Decimal rendering of a natural number, as `printf %lld` renders a
nonnegative value. -/
def natToDigits (n : Nat) : List Char := natToDigitsAux (n + 1) n []

/-- Decimal rendering of an `Int`, as `printf %lld` renders it. -/
def intToChars (i : Int) : List Char :=
  if i < 0 then '-' :: natToDigits i.natAbs else natToDigits i.toNat

/-- Zero-padded decimal rendering of a nonnegative value to a minimum
width, as `printf %0*lld` renders it. -/
def zeroPad (width : Nat) (n : Nat) : List Char :=
  let ds := natToDigits n
  List.replicate (width - ds.length) '0' ++ ds

/- ====================================================================
   sscanf fragments used by the scaled-integer parameter encode path

   `_FQexecParams` parses the caller's text with
     sscanf(svalue, "%ld.%<N>ld%1ld", &p, &q, &r)      and the fallback
     sscanf(svalue, ".%<N>ld%1ld", &q, &r)
   (identically for the INT64 variants `S_INT64_FULL` etc.).  The
   fragments below model the `%ld` conversions (optional sign then a
   nonempty digit run, greedy; with an optional maximum field width) on
   whitespace-free input, which is the only shape a parameter value
   takes on this path.
   ==================================================================== -/

/-- Greedy digit-run scan: the digits consumed and the rest, or `none`
when no digit is present (the conversion fails). -/
def scanDigits (s : List Char) : Option (Nat × List Char) :=
  let ds := s.takeWhile isDigitB
  if ds.isEmpty then none else some (digitsToNat ds, s.drop ds.length)

/-- Scan for `%ld` (unbounded width): optional sign, then digits. -/
def scanSigned (s : List Char) : Option (Int × List Char) :=
  match s with
  | [] => none
  | c :: rest =>
    if c = '-' then (scanDigits rest).map (fun pr => (-(pr.1 : Int), pr.2))
    else if c = '+' then (scanDigits rest).map (fun pr => ((pr.1 : Int), pr.2))
    else (scanDigits (c :: rest)).map (fun pr => ((pr.1 : Int), pr.2))

/-- Greedy digit-run scan limited to a maximum field width. -/
def scanDigitsMax (n : Nat) (s : List Char) : Option (Nat × List Char) :=
  let ds := (s.takeWhile isDigitB).take n
  if ds.isEmpty then none else some (digitsToNat ds, s.drop ds.length)

/-- Scan for `%<n>ld`: optional sign then digits, at most `n` characters
consumed in total. -/
def scanSignedMax (n : Nat) (s : List Char) : Option (Int × List Char) :=
  match s with
  | [] => none
  | c :: rest =>
    if c = '-' then (scanDigitsMax (n - 1) rest).map (fun pr => (-(pr.1 : Int), pr.2))
    else if c = '+' then (scanDigitsMax (n - 1) rest).map (fun pr => ((pr.1 : Int), pr.2))
    else (scanDigitsMax n (c :: rest)).map (fun pr => ((pr.1 : Int), pr.2))

/-- Combined result of the two sscanf attempts of the `sqlscale < 0`
branch: `p`, `q`, `r` keep their initialisation `0` for conversions that
were never assigned.  The fallback format `".%<N>ld%1ld"` is tried only
when the first call assigns nothing (returns 0), exactly as in the C code. -/
def scanQRAfterDot (fracWidth : Nat) (rest2 : List Char) : Int × Int :=
  match scanSignedMax fracWidth rest2 with
  | some (q, rest3) =>
    (match scanSignedMax 1 rest3 with
     | some (r, _) => (q, r)
     | none => (q, 0))
  | none => (0, 0)

def scanPQR (fracWidth : Nat) (s : List Char) : Int × Int × Int :=
  match scanSigned s with
  | some (p, rest) =>
    (match rest with
     | c :: rest2 =>
       if c = '.' then
         let qr := scanQRAfterDot fracWidth rest2
         (p, qr.1, qr.2)
       else (p, 0, 0)
     | [] => (p, 0, 0))
  | none =>
    match s with
    | c :: rest2 =>
      if c = '.' then
        let qr := scanQRAfterDot fracWidth rest2
        (0, qr.1, qr.2)
      else (0, 0, 0)
    | [] => (0, 0, 0)

/-- Combined result of the two sscanf attempts of the `sqlscale >= 0`
branch: formats `"%ld.%1ld"` and fallback `".%1ld"`. -/
def scanPR (s : List Char) : Int × Int :=
  match scanSigned s with
  | some (p, rest) =>
    (match rest with
     | c :: rest2 =>
       if c = '.' then
         (match scanSignedMax 1 rest2 with
          | some (r, _) => (p, r)
          | none => (p, 0))
       else (p, 0)
     | [] => (p, 0))
  | none =>
    match s with
    | c :: rest2 =>
      if c = '.' then
        (match scanSignedMax 1 rest2 with
         | some (r, _) => (0, r)
         | none => (0, 0))
      else (0, 0)
    | [] => (0, 0)

/- ====================================================================
   Scaled-integer parameter encode (`_FQexecParams`, cases SQL_SHORT /
   SQL_LONG / SQL_INT64)

   The SQL_SHORT/SQL_LONG case and the SQL_INT64 case run the same
   algorithm (the former in `long` arithmetic, the latter in
   `ISC_INT64`); both are modelled by `encodeScaledText` over `Int`,
   with the final store cast applied by `storeScaled`.
   ==================================================================== -/

/-- Strchr-based "negative -0.x hack" of the `sqlscale < 0` branch:
when the text contains a `-`, everything up to and including the first
one is dropped and the sign is remembered. -/
def negHack (svalue0 : List Char) : Bool × List Char :=
  match svalue0.findIdx? (· = '-') with
  | some i => (true, svalue0.drop (i + 1))
  | none => (false, svalue0)

/-- Body of the `sqlscale < 0` branch of the scaled-integer encode, after
the sign hack: the two sscanf attempts produce `p`, `q`, `r`; `r >= 5`
rounds `q` up with carry into `p` (C truncating division); `dscale`
re-scales a short fractional part from the position of the decimal
point; the result is `(p * scale + q * 10^dscale) * (neg ? -1 : 1)`. -/
def encodeScaledNegBranch (n : Nat) (neg : Bool) (svalue : List Char) : Int :=
  let scaleN : Int := 10 ^ n
  let len : Int := svalue.length
  let pqr := scanPQR n svalue
  let p := pqr.1
  let q := pqr.2.1
  let r := pqr.2.2
  let q' := if r ≥ 5 then q + 1 else q
  let p' := if r ≥ 5 then p + Int.tdiv q' scaleN else p
  let q'' := if r ≥ 5 then Int.tmod q' scaleN else q'
  let dscale : Int :=
    (svalue.findIdx? (· = '.')).elim 0 (fun j => (n : Int) - (len - (j : Int)) + 1)
  let dscale' := if dscale < 0 then 0 else dscale
  (p' * scaleN + q'' * 10 ^ dscale'.toNat) * (if neg then -1 else 1)

/-- Body of the `sqlscale >= 0` branch of the scaled-integer encode:
parse `p` and a single rounding digit `r`, rounding away from zero. -/
def encodeScaledZeroBranch (svalue0 : List Char) : Int :=
  let pr := scanPR svalue0
  let p := pr.1
  let r := pr.2
  if r ≥ 5 then (if p < 0 then p - 1 else p + 1) else p

/-- Text-to-scaled-integer conversion of `_FQexecParams` for the types
SQL_SHORT, SQL_LONG and SQL_INT64, before the final store cast.  The C
computes the scale factor as `int scale = (int) pow(10.0, -sqlscale)`,
which equals the exact `10 ^ -sqlscale` used here whenever
`-sqlscale <= 9` (the double is exact and the value fits `int`); for
larger magnitudes the cast overflows `int` — undefined behaviour —
so the round-trip theorem restricts `sqlscale` to `-9 <= sqlscale <= 0`. -/
def encodeScaledText (sqlscale : Int) (svalue0 : List Char) : Int :=
  if sqlscale < 0 then
    let pr := negHack svalue0
    encodeScaledNegBranch (-sqlscale).toNat pr.1 pr.2
  else
    encodeScaledZeroBranch svalue0

/-- Scaled-integer column types handled by the round-trip claims. -/
inductive ScaledType
  | short
  | long
  | int64
deriving DecidableEq

/-- Bit width of the native storage for each scaled type
(ISC_SHORT, ISC_LONG, ISC_INT64). -/
def ScaledType.bits : ScaledType → Nat
  | .short => 16
  | .long => 32
  | .int64 => 64

/-- Two's-complement wrap to a signed width, modelling the C store casts
`(ISC_SHORT) result`, `(ISC_LONG) result` and `(ISC_INT64)` identity. -/
def wrapSigned (bits : Nat) (x : Int) : Int :=
  (x + 2 ^ (bits - 1)) % 2 ^ bits - 2 ^ (bits - 1)

/-- Native value as stored in `var->sqldata` for a scaled type. -/
def storeScaled (t : ScaledType) (x : Int) : Int :=
  wrapSigned t.bits x

/- ====================================================================
   Scaled-integer decode (`_FQformatDatum`, cases SQL_SHORT / SQL_LONG /
   SQL_INT64)
   ==================================================================== -/

/-- Text RENDERING of a stored scaled integer — the characters `sprintf`
(value ≥ 0) or `snprintf` into `format_buffer` (value < 0) produce in the
`SQL_SHORT`/`SQL_LONG`/`SQL_INT64` arm of `_FQformatDatum`, before any
copy into the destination buffer: for negative `dscale` the value splits
at `tens = 10^-dscale` with an explicit `"-0.xxx"` branch when the
integer part truncates to zero; positive `dscale` right-pads zeros; zero
`dscale` renders a plain integer.  The destination buffer and its
`memcpy` truncation are applied on top of this by
`formatDatumScaledText`. -/
def formatScaledInt (dscale : Int) (value : Int) : List Char :=
  if dscale < 0 then
    let tens : Int := 10 ^ (-dscale).toNat
    if value ≥ 0 then
      natToDigits (Int.tdiv value tens).toNat
        ++ '.' :: zeroPad (-dscale).toNat (Int.tmod value tens).toNat
    else if Int.tdiv value tens ≠ 0 then
      intToChars (Int.tdiv value tens)
        ++ '.' :: zeroPad (-dscale).toNat (-(Int.tmod value tens)).toNat
    else
      '-' :: '0' :: '.' :: zeroPad (-dscale).toNat (-(Int.tmod value tens)).toNat
  else if dscale ≠ 0 then
    intToChars value ++ List.replicate dscale.toNat '0'
  else
    intToChars value

/-- `field_width` of the `SQL_SHORT`/`SQL_LONG`/`SQL_INT64` arm of
`_FQformatDatum`: 6, 11 and 21 respectively. -/
def field_width : ScaledType → Int
  | .short => 6
  | .long => 11
  | .int64 => 21

/-- Decoded TEXT as `_FQformatDatum` actually returns it for a scaled
integer, destination buffer included.  The arm computes
`buflen = field_width - 1 + dscale + 1 = field_width + dscale`.  For
`dscale < 0` and a negative value, the rendering is built in
`format_buffer` and then `memcpy(p, format_buffer, buflen - 1)` copies it
into a zeroed `buflen`-byte buffer, truncating the text to at most
`buflen - 1` characters.  For `dscale < 0` and a nonnegative value, the
rendering is `sprintf`ed straight into the `buflen`-byte buffer; a
rendering longer than `buflen - 1` characters then overflows the
allocation — undefined behaviour in the C, which the round-trip
theorem's fit hypothesis excludes.  The `dscale = 0` branch allocates
`field_width + 1` bytes, which every rendered value fits. -/
def formatDatumScaledText (t : ScaledType) (dscale : Int) (value : Int) : List Char :=
  if dscale < 0 then
    if value ≥ 0 then formatScaledInt dscale value
    else (formatScaledInt dscale value).take (field_width t + dscale - 1).toNat
  else formatScaledInt dscale value

/- ====================================================================
   Numeric reading of a decimal text (specification side)

   Mathematical value denoted by a rendered decimal string: an optional
   leading minus, an integer digit run, and an optional fractional digit
   run after a decimal point.  This is the reference meaning used to
   state "same numeric value" in the round-trip claims.
   ==================================================================== -/

/-- Value of an unsigned decimal text `digits[.digits]`. -/
def textRatValuePos (s : List Char) : ℚ :=
  let d := s.takeWhile isDigitB
  let rest := s.drop d.length
  match rest with
  | c :: f =>
    if c = '.' then
      let fd := f.takeWhile isDigitB
      (digitsToNat d : ℚ) + (digitsToNat fd : ℚ) / 10 ^ fd.length
    else (digitsToNat d : ℚ)
  | [] => (digitsToNat d : ℚ)

/-- Value of a decimal text with an optional leading minus. -/
def textRatValue (s : List Char) : ℚ :=
  match s with
  | [] => textRatValuePos []
  | c :: rest =>
    if c = '-' then -textRatValuePos rest else textRatValuePos (c :: rest)

/-- Parameter text assembled from a sign, integer digits and fractional
digits; `mkDecimalText false [1] [5] = "1.5"`, `mkDecimalText true [] [5] = "-.5"`. -/
def mkDecimalText (neg : Bool) (intDs fracDs : List Char) : List Char :=
  (if neg then ['-'] else []) ++ intDs ++ (if fracDs.isEmpty then [] else '.' :: fracDs)

/-- Negative fractional boundary (concrete check while developing). -/
example : encodeScaledText (-1) "-0.5".toList = -5 := by decide

example : formatScaledInt (-1) (-5) = "-0.5".toList := by decide

example : encodeScaledText (-2) "1.5".toList = 150 := by decide

example : formatScaledInt (-2) 150 = "1.50".toList := by decide

example : encodeScaledText (-2) "-.78".toList = -78 := by decide

example : encodeScaledText 0 "42".toList = 42 := by decide

example : formatScaledInt 0 (-42) = "-42".toList := by decide

/- ====================================================================
   RDB$DB_KEY helpers (`_FQparseDbKey`, `_FQdeparseDbKey`)
   ==================================================================== -/

/-- Display length of an RDB$DB_KEY hex string (`FB_DB_KEY_LEN`). -/
def FB_DB_KEY_LEN : Nat := 16

/-- Uppercase hexadecimal digit character, as `printf %02X` renders one
nibble. -/
def hexDigitChar (n : Nat) : Char :=
  match n with
  | 0 => '0' | 1 => '1' | 2 => '2' | 3 => '3' | 4 => '4'
  | 5 => '5' | 6 => '6' | 7 => '7' | 8 => '8' | 9 => '9'
  | 10 => 'A' | 11 => 'B' | 12 => 'C' | 13 => 'D' | 14 => 'E' | _ => 'F'

/-- Two uppercase hexadecimal characters for one byte (`sprintf "%02X"`
on a value below 256). -/
def byteToHexPair (b : Nat) : List Char :=
  [hexDigitChar (b / 16), hexDigitChar (b % 16)]

/-- Hex rendering of a raw 8-byte RDB$DB_KEY, translated from
`_FQparseDbKey`: the loop walks exactly eight bytes and appends
`sprintf "%02X"` of each. -/
def _FQparseDbKey (db_key : List Nat) : List Char :=
  ((db_key.take 8).map byteToHexPair).flatten

/-- Value of one hexadecimal character under `sscanf %X`
(case-insensitive), or `none` for a non-hex character. -/
def hexCharVal (c : Char) : Option Nat :=
  if 48 ≤ c.toNat ∧ c.toNat ≤ 57 then some (c.toNat - 48)
  else if 65 ≤ c.toNat ∧ c.toNat ≤ 70 then some (c.toNat - 55)
  else if 97 ≤ c.toNat ∧ c.toNat ≤ 102 then some (c.toNat - 87)
  else none

/-- Result of `sscanf(buf, "%02X", ...)` on a two-character buffer:
greedy hex scan of at most two characters; `none` when the first
character is not hexadecimal (no assignment made). -/
def scanHexPair (c1 c2 : Char) : Option Nat :=
  match hexCharVal c1 with
  | none => none
  | some v1 =>
    match hexCharVal c2 with
    | none => some v1
    | some v2 => some (16 * v1 + v2)

/-- Pair-consuming loop body of `_FQdeparseDbKey`: the output pointer
advances only when a pair was successfully scanned. -/
def deparseDbKeyPairs : List Char → List Nat
  | c1 :: c2 :: rest =>
    (match scanHexPair c1 c2 with
     | some v => v :: deparseDbKeyPairs rest
     | none => deparseDbKeyPairs rest)
  | _ => []

/-- Raw bytes recovered from a 16-character RDB$DB_KEY hex string,
translated from `_FQdeparseDbKey`: the input pointer walks
`FB_DB_KEY_LEN` characters two at a time and each pair goes through
`sscanf "%02X"`. -/
def _FQdeparseDbKey (db_key : List Char) : List Nat :=
  deparseDbKeyPairs (db_key.take FB_DB_KEY_LEN)

example : _FQparseDbKey [0, 255, 16, 1, 171, 205, 239, 18] =
    "00FF1001ABCDEF12".toList := by decide

example : _FQdeparseDbKey "00FF1001ABCDEF12".toList =
    [0, 255, 16, 1, 171, 205, 239, 18] := by decide

/- ====================================================================
   Boolean parameter encode (`_FQexecParams`, case SQL_BOOLEAN)
   ==================================================================== -/

/-- ASCII lower-casing of one byte, as C `tolower` acts on the
characters involved here. -/
def tolowerB (n : Nat) : Nat := if 65 ≤ n ∧ n ≤ 90 then n + 32 else n

/-- C `strncasecmp` on NUL-free strings modelled as char lists (list end
stands for the terminating NUL).  All uses below compare against literal
second arguments, so the mutual-NUL case never recurses wrongly. -/
def strncasecmp : Nat → List Char → List Char → Int
  | 0, _, _ => 0
  | _ + 1, [], [] => 0
  | _ + 1, [], b :: _ => 0 - (tolowerB b.toNat : Int)
  | _ + 1, a :: _, [] => (tolowerB a.toNat : Int)
  | n + 1, a :: as, b :: bs =>
    let ca := tolowerB a.toNat
    let cb := tolowerB b.toNat
    if ca ≠ cb then (ca : Int) - (cb : Int)
    else strncasecmp n as bs

/-- Native boolean stored for a SQL_BOOLEAN parameter, translated from
the `strncasecmp` cascade in `_FQexecParams` (`FB_TRUE` is `true`,
`FB_FALSE` is `false`). -/
def encodeBooleanParam (v : List Char) : Bool :=
  if strncasecmp 1 v "0".toList = 0 then false
  else if strncasecmp 1 v "1".toList = 0 then true
  else if strncasecmp 5 v "false".toList = 0 then false
  else if strncasecmp 1 v "f".toList = 0 then false
  else if strncasecmp 4 v "true".toList = 0 then true
  else if strncasecmp 1 v "t".toList = 0 then true
  else false

example : encodeBooleanParam "TRUE".toList = true := by decide
example : encodeBooleanParam "t".toList = true := by decide
example : encodeBooleanParam "1abc".toList = true := by decide
example : encodeBooleanParam "falsehood".toList = false := by decide
example : encodeBooleanParam "".toList = false := by decide
example : encodeBooleanParam "yes".toList = false := by decide

/- ====================================================================
   Datum decode (`_FQformatDatum`) and the tuple-value structure
   ==================================================================== -/

/-- Decoded cell (`FQresTupleAtt`): the text value is `none` exactly
while unset, `len` mirrors `strlen` of the value. -/
structure FQresTupleAtt where
  value : Option (List Char)
  has_null : Bool
  len : Nat
deriving DecidableEq, Repr

instance : Inhabited FQresTupleAtt := ⟨⟨none, true, 0⟩⟩

/-- Hex rendering of an octet column (`_FQformatOctet`): every byte
becomes two uppercase hex characters (the NUL-byte branch prints "00",
which is what `%02X` prints for zero as well). -/
def _FQformatOctet (data : List Nat) : List Char :=
  (data.map byteToHexPair).flatten

/-- Raw column datum reaching the `switch (datatype)` of
`_FQformatDatum`, one constructor per arm that is modelled.  The
date/time/timestamp and BLOB arms build their text through engine calls
plus `snprintf`; they are modelled by `engineText`, whose flag is false
when `snprintf` failed (`format_error`), in which case `p` stays NULL.
The float/double/int128 arms also always produce a non-NULL `p` and are
subsumed by `engineText true`. -/
inductive Datum
  | text (sqlsubtype : Int) (bytes : List Nat)
  | varying (sqlsubtype : Int) (bytes : List Nat)
  | scaled (t : ScaledType) (sqlscale : Int) (value : Int)
  | boolean (byte : Nat)
  | dbKey (bytes : List Nat)
  | engineText (ok : Bool) (chars : List Char)
  | unhandled (code : Int)
deriving DecidableEq

/-- Bytes rendered as text characters (a `memcpy` into a NUL-terminated
buffer). -/
def bytesToChars (bs : List Nat) : List Char := bs.map Char.ofNat

/-- Body of the `switch (datatype)` of `_FQformatDatum`: the text
pointer `p`, still `none` on the `format_error` paths. -/
def formatDatumBody : Datum → Option (List Char)
  | .text sqlsubtype bytes =>
    if sqlsubtype = 1 then some (_FQformatOctet bytes) else some (bytesToChars bytes)
  | .varying sqlsubtype bytes =>
    if sqlsubtype = 1 then some (_FQformatOctet bytes) else some (bytesToChars bytes)
  | .scaled _ sqlscale value => some (formatScaledInt sqlscale value)
  | .boolean byte => some [if byte = 1 then 't' else 'f']
  | .dbKey bytes => some (bytesToChars bytes)
  | .engineText ok chars => if ok then some chars else none
  | .unhandled code => some ("Unhandled datatype ".toList ++ intToChars code)

/-- Placeholder text installed when `p` is still NULL after the switch
("Error formatting datatype %i" on the `format_error` paths). -/
def formatErrorPlaceholder (code : Int) : List Char :=
  "Error formatting datatype ".toList ++ intToChars code

/-- Type code recorded in the column descriptor for a datum (the
dispatch value of the switch); only used for the placeholder text. -/
def datumTypeCode : Datum → Int
  | .text _ _ => 452
  | .varying _ _ => 448
  | .scaled .short _ _ => 500
  | .scaled .long _ _ => 496
  | .scaled .int64 _ _ => 580
  | .boolean _ => 32764
  | .dbKey _ => 16384
  | .engineText _ _ => 510
  | .unhandled code => code

/-- Translation of `_FQformatDatum`: a nullable column with the null
indicator set short-circuits to an empty cell with `has_null` raised;
otherwise the switch body runs and a NULL `p` is replaced by the
placeholder, so the stored value is never NULL. -/
def _FQformatDatum (nullable : Bool) (sqlind : Int) (d : Datum) : FQresTupleAtt :=
  if nullable ∧ sqlind < 0 then
    { value := none, has_null := true, len := 0 }
  else
    let p :=
      match formatDatumBody d with
      | some v => v
      | none => formatErrorPlaceholder (datumTypeCode d)
    { value := some p, has_null := false, len := p.length }

/- ====================================================================
   Result object and accessors (`FBresult`, `FQgetvalue`, `FQgetisnull`,
   `FQgetlength`, `FQgetdsplen`, `FQfname`, `FQftype`, `FQfformat`,
   `FQfhasNull`)
   ==================================================================== -/

/-- Column descriptor (`FQresTupleAttDesc`): name, optional alias (only
set when it differs from the name), resolved type code and the
column-level null flag. -/
structure FQresTupleAttDesc where
  desc : List Char
  alias_len : Nat
  aliasName : List Char
  type : Int
  has_null : Bool
deriving DecidableEq

instance : Inhabited FQresTupleAttDesc := ⟨⟨[], 0, [], -1, false⟩⟩

/-- Populated result object: row/column counts as stored (`Int`, `-1`
until known), the random-access tuple array, and the header. -/
structure FBresultModel where
  ntups : Int
  ncols : Int
  tuples : List (List FQresTupleAtt)
  header : List FQresTupleAttDesc
deriving DecidableEq

instance : Inhabited FBresultModel := ⟨⟨-1, -1, [], []⟩⟩

/-- SQL_INVALID_TYPE pseudo-type code. -/
def SQL_INVALID_TYPE : Int := -1

/-- SQL_BLOB type code. -/
def SQL_BLOB : Int := 520

/-- Cell lookup once bounds have been established (array indexing
`res->tuples[row]->values[col]`). -/
def tupleCell (res : FBresultModel) (row col : Int) : FQresTupleAtt :=
  (res.tuples.getD row.toNat []).getD col.toNat default

/-- Bounds check shared by the per-cell accessors
(`check_tuple_field_number`). -/
def check_tuple_field_number (res : Option FBresultModel) (row col : Int) : Bool :=
  match res with
  | none => false
  | some r =>
    if row < 0 ∨ row ≥ r.ntups then false
    else if col < 0 ∨ col ≥ r.ncols then false
    else true

/-- Translation of `FQgetvalue`: NULL on a failed bounds check,
otherwise the stored text pointer (which is NULL for a null cell). -/
def FQgetvalue (res : Option FBresultModel) (row col : Int) : Option (List Char) :=
  if !check_tuple_field_number res row col then none
  else (tupleCell (res.getD default) row col).value

/-- Translation of `FQgetisnull`: out-of-range access "pretends it is
null" and returns 1; otherwise 1 exactly when the cell's `has_null` is
set. -/
def FQgetisnull (res : Option FBresultModel) (row col : Int) : Int :=
  if !check_tuple_field_number res row col then 1
  else if (tupleCell (res.getD default) row col).has_null then 1
  else 0

/-- Translation of `FQgetlength`: -1 on a failed bounds check, else the
cell's byte length. -/
def FQgetlength (res : Option FBresultModel) (row col : Int) : Int :=
  if !check_tuple_field_number res row col then -1
  else ((tupleCell (res.getD default) row col).len : Int)

/-- Translation of `FQgetdsplen`: -1 on a failed bounds check, else the
cell's display length (modelled as equal to `len`; the multibyte width
tables are out of scope and irrelevant to the bounds contract). -/
def FQgetdsplen (res : Option FBresultModel) (row col : Int) : Int :=
  if !check_tuple_field_number res row col then -1
  else ((tupleCell (res.getD default) row col).len : Int)

/-- Translation of `FQfname`: NULL for a NULL result or column index out
of range, else the alias when set, the base name otherwise. -/
def FQfname (res : Option FBresultModel) (col : Int) : Option (List Char) :=
  match res with
  | none => none
  | some r =>
    if col < 0 ∨ col ≥ r.ncols then none
    else
      let d := r.header.getD col.toNat default
      if d.alias_len ≠ 0 then some d.aliasName else some d.desc

/-- Translation of `FQftype`: `SQL_INVALID_TYPE` for a NULL result or
column index out of range, else the resolved column type. -/
def FQftype (res : Option FBresultModel) (col : Int) : Int :=
  match res with
  | none => SQL_INVALID_TYPE
  | some r =>
    if col < 0 ∨ col ≥ r.ncols then SQL_INVALID_TYPE
    else (r.header.getD col.toNat default).type

/-- Translation of `FQfformat`: -1 for a NULL result or column index out
of range, 1 for a BLOB column, 0 otherwise. -/
def FQfformat (res : Option FBresultModel) (col : Int) : Int :=
  match res with
  | none => -1
  | some r =>
    if col < 0 ∨ col ≥ r.ncols then -1
    else if FQftype res col = SQL_BLOB then 1 else 0

/-- Translation of `FQfhasNull`: false for a NULL result or column index
out of range, else the column-level null flag. -/
def FQfhasNull (res : Option FBresultModel) (col : Int) : Bool :=
  match res with
  | none => false
  | some r =>
    if col < 0 ∨ col ≥ r.ncols then false
    else (r.header.getD col.toNat default).has_null

/- ====================================================================
   Output-descriptor negotiation (`_FQexec` lines around the second
   `isc_dsql_describe`, with `FB_XSQLDA_INITLEN`)
   ==================================================================== -/

/-- Initial speculative XSQLVAR capacity (`FB_XSQLDA_INITLEN`). -/
def FB_XSQLDA_INITLEN : Nat := 15

/-- Observable outcome of the describe/reallocate negotiation. -/
structure DescribeNegotiation where
  reallocs : Nat
  capacity : Nat
  ncols : Nat
deriving DecidableEq, Repr

/-- Translation of the describe/expand sequence of `_FQexec`: the first
describe runs against the speculative `FB_XSQLDA_INITLEN`-slot array and
stores `sqld` into `ncols`; only when the allocated `sqln` is smaller is
the array freed, reallocated with exactly `ncols` slots, described
again, and `ncols` refreshed from the second `sqld`.  The engine's
describe primitive is a function from the offered capacity to the
reported `sqld`. -/
def negotiateDescribe (describe : Nat → Nat) : DescribeNegotiation :=
  let sqld1 := describe FB_XSQLDA_INITLEN
  if FB_XSQLDA_INITLEN < sqld1 then
    ⟨1, sqld1, describe sqld1⟩
  else
    ⟨0, FB_XSQLDA_INITLEN, sqld1⟩

/- ====================================================================
   Transaction/statement lifecycle of `_FQexec`

   The connection's transaction-relevant state is the default
   transaction handle (modelled as set/unset), the explicit-transaction
   flag and the autocommit flag.  The engine's responses to the
   successive calls (allocate, prepare, sql_info, describe phase,
   execute, fetch loop) are the oracle; transaction start/commit/
   rollback primitives are assumed to succeed, matching the code which
   ignores their return values on these paths.
   ==================================================================== -/

/-- Transaction-relevant connection state. -/
structure ConnTx where
  trans : Bool
  in_user_transaction : Bool
  autocommit : Bool
deriving DecidableEq, Repr

/-- Statement classification as `_FQexec` derives it from
`isc_info_sql_stmt_type` and `sqlda_out->sqld`: the four special
non-row classes, any other statement without output columns, and a
row-returning statement. -/
inductive StmtClass
  | startTrans
  | commitStmt
  | rollbackStmt
  | ddl
  | otherNonRow
  | rowReturning
deriving DecidableEq, Repr

/-- Success/failure of each engine call `_FQexec` makes, in order. -/
structure EngineResp where
  allocOk : Bool
  prepareOk : Bool
  infoOk : Bool
  describeOk : Bool
  executeOk : Bool
  fetchOk : Bool
deriving DecidableEq, Repr

/-- Result status codes of interest (`FBresultStatus`). -/
inductive FQresStatus
  | commandOk
  | tuplesOk
  | emptyQuery
  | transactionStart
  | transactionCommit
  | transactionRollback
  | fatalError
deriving DecidableEq, Repr

/-- Non-fatal warning conditions raised through
`_FQsetResultNonFatalError` on the transaction-statement paths. -/
inductive FQwarning
  | currentlyInTransaction
  | notCurrentlyInTransaction
deriving DecidableEq, Repr

/-- Observable outcome of one `_FQexec` call: the connection state on
return, the result status, and any non-fatal warning emitted. -/
structure ExecOutcome where
  conn : ConnTx
  status : FQresStatus
  warning : Option FQwarning
deriving DecidableEq, Repr

/-- Translation of the control flow of `_FQexec` over the
transaction-relevant state.  Faithful points worth noting: the prepare
and sql_info failure paths roll back unconditionally; the non-row
non-DDL execute failure path returns fatal-error WITHOUT rolling back;
the row-returning describe failure path likewise returns without
rolling back; the row-returning execute/fetch failure paths roll back
only under `autocommit && !in_user_transaction`. -/
def fqExec (c0 : ConnTx) (cls : StmtClass) (e : EngineResp) : ExecOutcome :=
  if !e.allocOk then ⟨c0, .fatalError, none⟩
  else
    -- temporary transaction so that prepare can run
    let temp_trans := !c0.trans
    let c1 := if c0.trans then c0 else { c0 with trans := true }
    if !e.prepareOk then ⟨{ c1 with trans := false }, .fatalError, none⟩
    else
      let c2 := if temp_trans then { c1 with trans := false } else c1
      if !e.infoOk then ⟨{ c2 with trans := false }, .fatalError, none⟩
      else
        match cls with
        | .startTrans =>
          if c2.trans then ⟨c2, .emptyQuery, some .currentlyInTransaction⟩
          else ⟨{ c2 with trans := true, in_user_transaction := true },
                .transactionStart, none⟩
        | .commitStmt =>
          if !c2.trans then
            ⟨{ c2 with in_user_transaction := false }, .emptyQuery,
             some .notCurrentlyInTransaction⟩
          else
            ⟨{ c2 with trans := false, in_user_transaction := false },
             .transactionCommit, none⟩
        | .rollbackStmt =>
          if !c2.trans then
            ⟨{ c2 with in_user_transaction := false }, .emptyQuery,
             some .notCurrentlyInTransaction⟩
          else
            ⟨{ c2 with trans := false, in_user_transaction := false },
             .transactionRollback, none⟩
        | .ddl =>
          let temp2 := !c2.trans
          let c3 := if c2.trans then c2 else { c2 with trans := true }
          if !e.executeOk then ⟨{ c3 with trans := false }, .fatalError, none⟩
          else
            let c4 :=
              if (c3.autocommit ∧ !c3.in_user_transaction) ∨ temp2 then
                { c3 with trans := false }
              else c3
            ⟨c4, .commandOk, none⟩
        | .otherNonRow =>
          let flag := if !c2.autocommit then true else c2.in_user_transaction
          let c3 :=
            if c2.trans then c2
            else { c2 with trans := true, in_user_transaction := flag }
          if !e.executeOk then ⟨c3, .fatalError, none⟩
          else
            let c4 :=
              if c3.autocommit ∧ !c3.in_user_transaction then
                { c3 with trans := false }
              else c3
            ⟨c4, .commandOk, none⟩
        | .rowReturning =>
          let flag := if !c2.autocommit then true else c2.in_user_transaction
          let c3 :=
            if c2.trans then c2
            else { c2 with trans := true, in_user_transaction := flag }
          if !e.describeOk then ⟨c3, .fatalError, none⟩
          else if !e.executeOk then
            ⟨if c3.autocommit ∧ !c3.in_user_transaction then
               { c3 with trans := false } else c3, .fatalError, none⟩
          else if !e.fetchOk then
            ⟨if c3.autocommit ∧ !c3.in_user_transaction then
               { c3 with trans := false } else c3, .fatalError, none⟩
          else
            ⟨if c3.autocommit ∧ !c3.in_user_transaction then
               { c3 with trans := false } else c3, .tuplesOk, none⟩

/-- Translation of `FQisActiveTransaction`: false on a NULL connection,
else the explicit-transaction flag. -/
def FQisActiveTransaction : Option ConnTx → Bool
  | none => false
  | some c => c.in_user_transaction

/- ====================================================================
   Connection construction (`FQconnectdbParams`) and connection-level
   status/error accessors (`FQstatus`, `FQerrorMessage`)
   ==================================================================== -/

/-- Engine attach outcome: success, or failure with the sequence of
diagnostic fragments `fb_interpret` yields. -/
structure AttachOutcome where
  ok : Bool
  fragments : List (List Char)
deriving DecidableEq

/-- Connection object fields relevant to the attach-failure contract. -/
structure FBconnModel where
  db : Bool
  trans : Bool
  in_user_transaction : Bool
  autocommit : Bool
  errMsg : Option (List Char)
deriving DecidableEq

/-- Assembly of the attach-failure diagnostic text: the first
`fb_interpret` fragment is appended as "%s\n", every further one as
" - %s\n". -/
def assembleAttachDiag (fragments : List (List Char)) : List Char :=
  match fragments with
  | [] => []
  | first :: rest =>
    (first ++ ['\n']) ++
      (rest.map (fun f => ' ' :: '-' :: ' ' :: (f ++ ['\n']))).flatten

/-- Translation of `FQconnectdbParams` restricted to its observable
contract: a missing `db_path` returns NULL; otherwise a connection
object is always returned, initialised with `db = 0`, no transaction,
autocommit on; a failed `isc_attach_database` leaves `db` unset and
caches the assembled diagnostic text in `conn->errMsg`. -/
def FQconnectdbParams (db_path : Option (List Char)) (attach : AttachOutcome) :
    Option FBconnModel :=
  match db_path with
  | none => none
  | some _ =>
    let conn : FBconnModel :=
      { db := false, trans := false, in_user_transaction := false,
        autocommit := true, errMsg := none }
    if attach.ok then some { conn with db := true }
    else some { conn with errMsg := some (assembleAttachDiag attach.fragments) }

/-- Connection status codes (`FBconnStatusType`). -/
inductive FBconnStatus
  | connectionOk
  | connectionBad
deriving DecidableEq, Repr

/-- Translation of `FQstatus`: bad when the connection object is NULL or
the database handle was never set; otherwise the probing
`isc_database_info` call (engine oracle `infoOk`) decides. -/
def FQstatus (conn : Option FBconnModel) (infoOk : Bool) : FBconnStatus :=
  match conn with
  | none => .connectionBad
  | some c =>
    if !c.db then .connectionBad
    else if infoOk then .connectionOk
    else .connectionBad

/-- Translation of `FQerrorMessage`: the empty string for a NULL
connection or an unset message, else the cached message. -/
def FQerrorMessage (conn : Option FBconnModel) : List Char :=
  match conn with
  | none => []
  | some c => c.errMsg.getD []

/-- Condition under which the per-cell accessors reject the call: NULL
result pointer, or a row or column index negative or not below the
stored counts. -/
def cellIndexInvalid (res : Option FBresultModel) (row col : Int) : Prop :=
  res = none ∨ ∃ r, res = some r ∧
    (row < 0 ∨ r.ntups ≤ row ∨ col < 0 ∨ r.ncols ≤ col)

/-- Condition under which the per-column accessors reject the call. -/
def colIndexInvalid (res : Option FBresultModel) (col : Int) : Prop :=
  res = none ∨ ∃ r, res = some r ∧ (col < 0 ∨ r.ncols ≤ col)

/-- Uppercase hexadecimal character predicate (digits and A-F). -/
def isUpperHexDigit (c : Char) : Bool :=
  (48 ≤ c.toNat && c.toNat ≤ 57) || (65 ≤ c.toNat && c.toNat ≤ 70)

/- ====================================================================
   Lemmas: digit rendering, text values, scan functions
   ==================================================================== -/

lemma isDigitB_digitChar10 {n : Nat} (h : n < 10) : isDigitB (digitChar10 n) = true := by
  interval_cases n <;> decide

lemma charVal_digitChar10 {n : Nat} (h : n < 10) : charVal (digitChar10 n) = n := by
  interval_cases n <;> decide

lemma digitChar10_ne_minus {n : Nat} (h : n < 10) : digitChar10 n ≠ '-' := by
  interval_cases n <;> decide

lemma isDigitB_ne_minus {c : Char} (h : isDigitB c = true) : c ≠ '-' := by
  intro hc; subst hc; simp [isDigitB] at h

lemma isDigitB_ne_dot {c : Char} (h : isDigitB c = true) : c ≠ '.' := by
  intro hc; subst hc; simp [isDigitB] at h

lemma natToDigitsAux_acc (fuel : Nat) :
    ∀ n acc, natToDigitsAux fuel n acc = natToDigitsAux fuel n [] ++ acc := by
  induction fuel with
  | zero => intro n acc; rfl
  | succ fuel ih =>
    intro n acc
    by_cases h : n < 10
    · simp [natToDigitsAux, h]
    · simp only [natToDigitsAux, h, if_false]
      rw [ih (n / 10) (digitChar10 (n % 10) :: acc), ih (n / 10) [digitChar10 (n % 10)]]
      simp

lemma natToDigitsAux_fuel :
    ∀ fuel fuel' n acc, n < fuel → n < fuel' →
      natToDigitsAux fuel n acc = natToDigitsAux fuel' n acc := by
  intro fuel
  induction fuel with
  | zero => intro fuel' n acc h; omega
  | succ fuel ih =>
    intro fuel' n acc h h'
    match fuel', h' with
    | fuel' + 1, h' =>
      by_cases h10 : n < 10
      · simp [natToDigitsAux, h10]
      · simp only [natToDigitsAux, h10, if_false]
        have hdiv : n / 10 < n := Nat.div_lt_self (by omega) (by omega)
        exact ih fuel' (n / 10) _ (by omega) (by omega)

lemma natToDigits_eq_ite (n : Nat) :
    natToDigits n =
      if n < 10 then [digitChar10 n]
      else natToDigits (n / 10) ++ [digitChar10 (n % 10)] := by
  by_cases h : n < 10
  · simp [natToDigits, natToDigitsAux, h]
  · have hdiv : n / 10 < n := Nat.div_lt_self (by omega) (by omega)
    rw [if_neg h]
    show natToDigitsAux (n + 1) n [] = _
    have hstep : natToDigitsAux (n + 1) n [] =
        natToDigitsAux n (n / 10) [digitChar10 (n % 10)] := by
      simp [natToDigitsAux, h]
    rw [hstep, natToDigitsAux_acc,
      natToDigitsAux_fuel n (n / 10 + 1) (n / 10) [] (by omega) (by omega)]
    rfl

lemma natToDigits_ne_nil (n : Nat) : natToDigits n ≠ [] := by
  rw [natToDigits_eq_ite]
  by_cases h : n < 10 <;> simp [h]

lemma natToDigits_all_digit (n : Nat) : ∀ c ∈ natToDigits n, isDigitB c = true := by
  induction n using Nat.strong_induction_on with
  | _ n ih =>
    rw [natToDigits_eq_ite]
    by_cases h : n < 10
    · simp only [h, if_true, List.mem_singleton]
      intro c hc; subst hc; exact isDigitB_digitChar10 h
    · simp only [h, if_false, List.mem_append, List.mem_singleton]
      intro c hc
      rcases hc with hc | hc
      · exact ih (n / 10) (Nat.div_lt_self (by omega) (by omega)) c hc
      · subst hc; exact isDigitB_digitChar10 (Nat.mod_lt _ (by omega))

lemma foldl_digits_acc (l : List Char) :
    ∀ acc, l.foldl (fun a c => 10 * a + charVal c) acc =
      acc * 10 ^ l.length + l.foldl (fun a c => 10 * a + charVal c) 0 := by
  induction l with
  | nil => intro acc; simp
  | cons c t ih =>
    intro acc
    simp only [List.foldl_cons, List.length_cons]
    rw [ih (10 * acc + charVal c), ih (10 * 0 + charVal c)]
    ring

lemma digitsToNat_foldl_acc (l : List Char) (acc : Nat) :
    l.foldl (fun a c => 10 * a + charVal c) acc = acc * 10 ^ l.length + digitsToNat l :=
  foldl_digits_acc l acc

lemma digitsToNat_append (l1 l2 : List Char) :
    digitsToNat (l1 ++ l2) = digitsToNat l1 * 10 ^ l2.length + digitsToNat l2 := by
  simp only [digitsToNat, List.foldl_append]
  exact digitsToNat_foldl_acc l2 _

lemma digitsToNat_natToDigits (n : Nat) : digitsToNat (natToDigits n) = n := by
  induction n using Nat.strong_induction_on with
  | _ n ih =>
    rw [natToDigits_eq_ite]
    by_cases h : n < 10
    · simp only [h, if_true]
      simp [digitsToNat, charVal_digitChar10 h]
    · simp only [h, if_false]
      rw [digitsToNat_append,
        ih (n / 10) (Nat.div_lt_self (by omega) (by omega))]
      have : digitsToNat [digitChar10 (n % 10)] = n % 10 := by
        simp [digitsToNat, charVal_digitChar10 (Nat.mod_lt n (y := 10) (by omega))]
      rw [this]
      simp only [List.length_singleton, pow_one]
      omega

lemma natToDigits_length_le :
    ∀ n k, 1 ≤ k → n < 10 ^ k → (natToDigits n).length ≤ k := by
  intro n
  induction n using Nat.strong_induction_on with
  | _ n ih =>
    intro k hk hn
    rw [natToDigits_eq_ite]
    by_cases h : n < 10
    · simp [h]; omega
    · simp only [h, if_false, List.length_append, List.length_singleton]
      have hk2 : 2 ≤ k := by
        by_contra hcon
        have : k = 1 := by omega
        subst this; simp at hn; omega
      have hlt : n / 10 < 10 ^ (k - 1) := by
        have h10 : 10 ^ k = 10 ^ (k - 1) * 10 := by
          rw [← pow_succ]; congr 1; omega
        rw [h10] at hn
        exact Nat.div_lt_of_lt_mul (by omega)
      have := ih (n / 10) (Nat.div_lt_self (by omega) (by omega)) (k - 1) (by omega) hlt
      omega

lemma digitsToNat_all_zero {l : List Char} (h : ∀ c ∈ l, c = '0') :
    digitsToNat l = 0 := by
  induction l with
  | nil => rfl
  | cons c t ih =>
    have hc := h c (by simp)
    subst hc
    have ht : digitsToNat t = 0 := ih (fun c hc => h c (by simp [hc]))
    have : digitsToNat ('0' :: t) = charVal '0' * 10 ^ t.length + digitsToNat t := by
      simpa using digitsToNat_append ['0'] t
    rw [this, ht]
    simp [charVal]

lemma zeroPad_all_digit (w n : Nat) : ∀ c ∈ zeroPad w n, isDigitB c = true := by
  intro c hc
  simp only [zeroPad, List.mem_append, List.mem_replicate] at hc
  rcases hc with ⟨_, hc⟩ | hc
  · subst hc; decide
  · exact natToDigits_all_digit n c hc

lemma zeroPad_length {w n : Nat} (hw : 1 ≤ w) (h : n < 10 ^ w) :
    (zeroPad w n).length = w := by
  have := natToDigits_length_le n w hw h
  simp only [zeroPad, List.length_append, List.length_replicate]
  omega

lemma takeWhile_digits_append_stop {l rest : List Char}
    (hl : ∀ c ∈ l, isDigitB c = true)
    (hrest : rest = [] ∨ ∃ c t, rest = c :: t ∧ isDigitB c = false) :
    (l ++ rest).takeWhile isDigitB = l := by
  induction l with
  | nil =>
    rcases hrest with h | ⟨c, t, h, hc⟩
    · subst h; rfl
    · subst h; simp [List.takeWhile_cons, hc]
  | cons a l ih =>
    have ha := hl a (by simp)
    simp only [List.cons_append, List.takeWhile_cons, ha, if_true]
    rw [ih (fun c hc => hl c (by simp [hc]))]

lemma takeWhile_digits_all {l : List Char} (hl : ∀ c ∈ l, isDigitB c = true) :
    l.takeWhile isDigitB = l := by
  have h2 : (l ++ ([] : List Char)).takeWhile isDigitB = l :=
    takeWhile_digits_append_stop hl (Or.inl rfl)
  simpa using h2

lemma findIdx?_not_found {p : Char → Bool} {l : List Char}
    (h : ∀ c ∈ l, p c = false) : l.findIdx? p = none := by
  rw [List.findIdx?_eq_none_iff]
  exact h

lemma findIdx?_append_found {p : Char → Bool} {l rest : List Char} {c : Char}
    (hl : ∀ x ∈ l, p x = false) (hc : p c = true) :
    (l ++ c :: rest).findIdx? p = some l.length := by
  rw [List.findIdx?_append, findIdx?_not_found hl]
  rw [List.findIdx?_cons, if_pos hc]
  simp

lemma digitsToNat_zeroPad (w n : Nat) : digitsToNat (zeroPad w n) = n := by
  simp only [zeroPad]
  rw [digitsToNat_append, digitsToNat_all_zero (l := List.replicate _ '0') (by simp),
    digitsToNat_natToDigits]
  simp

lemma textRatValue_cons_not_minus {c : Char} {l : List Char} (h : c ≠ '-') :
    textRatValue (c :: l) = textRatValuePos (c :: l) := by
  simp [textRatValue, h]

lemma textRatValue_cons_minus (l : List Char) :
    textRatValue ('-' :: l) = -textRatValuePos l := by
  simp [textRatValue]

lemma textRatValuePos_digits_dot_digits {d f : List Char}
    (hd : ∀ c ∈ d, isDigitB c = true) (hf : ∀ c ∈ f, isDigitB c = true) :
    textRatValuePos (d ++ '.' :: f) =
      (digitsToNat d : ℚ) + (digitsToNat f : ℚ) / 10 ^ f.length := by
  have htake : (d ++ '.' :: f).takeWhile isDigitB = d :=
    takeWhile_digits_append_stop hd (Or.inr ⟨'.', f, rfl, by decide⟩)
  simp only [textRatValuePos, htake, List.drop_left]
  rw [takeWhile_digits_all hf]
  simp

lemma textRatValuePos_digits_only {d : List Char}
    (hd : ∀ c ∈ d, isDigitB c = true) :
    textRatValuePos d = (digitsToNat d : ℚ) := by
  have htake : d.takeWhile isDigitB = d := takeWhile_digits_all hd
  simp only [textRatValuePos, htake, List.drop_length]

lemma textRatValue_digits_dot_digits {d f : List Char} (hne : d ≠ [])
    (hd : ∀ c ∈ d, isDigitB c = true) (hf : ∀ c ∈ f, isDigitB c = true) :
    textRatValue (d ++ '.' :: f) =
      (digitsToNat d : ℚ) + (digitsToNat f : ℚ) / 10 ^ f.length := by
  obtain ⟨c, t, rfl⟩ : ∃ c t, d = c :: t := by
    cases d with
    | nil => exact absurd rfl hne
    | cons c t => exact ⟨c, t, rfl⟩
  rw [List.cons_append,
    textRatValue_cons_not_minus (isDigitB_ne_minus (hd c (by simp))),
    ← List.cons_append, textRatValuePos_digits_dot_digits hd hf]

lemma textRatValue_digits_only {d : List Char} (hne : d ≠ [])
    (hd : ∀ c ∈ d, isDigitB c = true) :
    textRatValue d = (digitsToNat d : ℚ) := by
  obtain ⟨c, t, rfl⟩ : ∃ c t, d = c :: t := by
    cases d with
    | nil => exact absurd rfl hne
    | cons c t => exact ⟨c, t, rfl⟩
  rw [textRatValue_cons_not_minus (isDigitB_ne_minus (hd c (by simp))),
    textRatValuePos_digits_only hd]

lemma textRatValue_natToDigits_dot_pad {a m N : Nat} (hN : 1 ≤ N) (hm : m < 10 ^ N) :
    textRatValue (natToDigits a ++ '.' :: zeroPad N m) = (a : ℚ) + (m : ℚ) / 10 ^ N := by
  rw [textRatValue_digits_dot_digits (natToDigits_ne_nil a)
    (natToDigits_all_digit a) (zeroPad_all_digit N m)]
  rw [digitsToNat_natToDigits, digitsToNat_zeroPad, zeroPad_length hN hm]

/-- Decode-side value lemma for nonnegative values at negative scale. -/
lemma textRatValue_formatScaledInt_neg_nonneg (N n : Nat) (hN : 1 ≤ N) :
    textRatValue (formatScaledInt (-(N : Int)) ((n : Nat) : Int)) =
      ((n : ℚ)) / 10 ^ N := by
  have hlt : (-(N : Int)) < 0 := by omega
  have hNtoNat : (-(-(N : Int))).toNat = N := by omega
  have htens : (10 : Int) ^ N = ((10 ^ N : Nat) : Int) := by push_cast; ring
  have hpow : (0 : Nat) < 10 ^ N := Nat.pos_pow_of_pos N (by omega)
  have hge : ((n : Nat) : Int) ≥ 0 := Int.ofNat_nonneg n
  have hdiv : ((n : Nat) : Int).tdiv ((10 : Int) ^ N) = (((n / 10 ^ N : Nat)) : Int) := by
    rw [htens]; rfl
  have hmod : ((n : Nat) : Int).tmod ((10 : Int) ^ N) = (((n % 10 ^ N : Nat)) : Int) := by
    rw [htens]; rfl
  unfold formatScaledInt
  rw [if_pos hlt, hNtoNat, if_pos hge, hdiv, hmod, Int.toNat_natCast, Int.toNat_natCast,
    textRatValue_natToDigits_dot_pad hN (Nat.mod_lt n hpow)]
  have hsplit : (10 ^ N : Nat) * (n / 10 ^ N) + n % 10 ^ N = n := Nat.div_add_mod n _
  have h10 : ((10 : ℚ) ^ N) ≠ 0 := by positivity
  have hn : ((n : ℚ)) = 10 ^ N * ((n / 10 ^ N : Nat) : ℚ) + ((n % 10 ^ N : Nat) : ℚ) := by
    exact_mod_cast hsplit.symm
  rw [hn, add_div, mul_div_cancel_left₀ _ h10]

/-- Decode-side value lemma for negative values at negative scale,
covering both the `"-d.xxx"` and the explicit `"-0.xxx"` renderings. -/
lemma textRatValue_formatScaledInt_neg_neg (N m : Nat) (hN : 1 ≤ N) :
    textRatValue (formatScaledInt (-(N : Int)) (Int.negSucc m)) =
      (-((m + 1 : Nat) : ℚ)) / 10 ^ N := by
  have hlt : (-(N : Int)) < 0 := by omega
  have hNtoNat : (-(-(N : Int))).toNat = N := by omega
  have htens : (10 : Int) ^ N = ((10 ^ N : Nat) : Int) := by push_cast; ring
  have hpow : (0 : Nat) < 10 ^ N := Nat.pos_pow_of_pos N (by omega)
  have hnge : ¬ (Int.negSucc m ≥ 0) := by
    simp only [ge_iff_le, not_le]
    exact Int.negSucc_lt_zero m
  have hdiv : (Int.negSucc m).tdiv ((10 : Int) ^ N) =
      -(((m + 1) / 10 ^ N : Nat) : Int) := by
    rw [htens]; rfl
  have hmod : (Int.negSucc m).tmod ((10 : Int) ^ N) =
      -(((m + 1) % 10 ^ N : Nat) : Int) := by
    rw [htens]; rfl
  unfold formatScaledInt
  rw [if_pos hlt, hNtoNat, if_neg hnge, hdiv, hmod]
  by_cases hz : (m + 1) / 10 ^ N = 0
  · have hmlt : m + 1 < 10 ^ N := by
      by_contra hcon
      have := Nat.div_pos (Nat.le_of_not_lt hcon) hpow
      omega
    have hcond : ¬ (-(((m + 1) / 10 ^ N : Nat) : Int) ≠ 0) := by
      rw [hz]
      decide
    rw [if_neg hcond]
    have hmodm : (m + 1) % 10 ^ N = m + 1 := Nat.mod_eq_of_lt hmlt
    have hpadneg : (- -(((m + 1) % 10 ^ N : Nat) : Int)).toNat = m + 1 := by
      rw [neg_neg, Int.toNat_natCast, hmodm]
    rw [hpadneg]
    show textRatValue ('-' :: ('0' :: '.' :: zeroPad N (m + 1))) = _
    rw [textRatValue_cons_minus]
    have hsplitz : ('0' :: '.' :: zeroPad N (m + 1)) =
        ['0'] ++ '.' :: zeroPad N (m + 1) := rfl
    rw [hsplitz, textRatValuePos_digits_dot_digits
      (by intro c hc; simp at hc; subst hc; decide) (zeroPad_all_digit _ _)]
    rw [digitsToNat_zeroPad, zeroPad_length hN hmlt]
    have hz0 : digitsToNat ['0'] = 0 := by decide
    rw [hz0]
    push_cast
    ring
  · have hne0 : -(((m + 1) / 10 ^ N : Nat) : Int) ≠ 0 := by
      simp only [ne_eq, neg_eq_zero, Nat.cast_eq_zero]
      exact hz
    rw [if_pos hne0]
    have hkpos : 0 < (m + 1) / 10 ^ N := Nat.pos_of_ne_zero hz
    have hneg : -(((m + 1) / 10 ^ N : Nat) : Int) < 0 := by
      have h1 : (0 : Int) < (((m + 1) / 10 ^ N : Nat) : Int) := by exact_mod_cast hkpos
      omega
    have habs : (-(((m + 1) / 10 ^ N : Nat) : Int)).natAbs = (m + 1) / 10 ^ N := by
      rw [Int.natAbs_neg, Int.natAbs_ofNat]
    unfold intToChars
    rw [if_pos hneg, habs]
    have hpadneg : (- -(((m + 1) % 10 ^ N : Nat) : Int)).toNat = (m + 1) % 10 ^ N := by
      rw [neg_neg, Int.toNat_natCast]
    rw [hpadneg, List.cons_append, textRatValue_cons_minus,
      textRatValuePos_digits_dot_digits (natToDigits_all_digit _)
        (zeroPad_all_digit _ _),
      digitsToNat_natToDigits, digitsToNat_zeroPad,
      zeroPad_length hN (Nat.mod_lt _ hpow)]
    have hsplit : (10 ^ N : Nat) * ((m + 1) / 10 ^ N) + (m + 1) % 10 ^ N = m + 1 :=
      Nat.div_add_mod _ _
    have h10 : ((10 : ℚ) ^ N) ≠ 0 := by positivity
    have hm1 : (((m + 1 : Nat)) : ℚ) =
        10 ^ N * (((m + 1) / 10 ^ N : Nat) : ℚ) + (((m + 1) % 10 ^ N : Nat) : ℚ) := by
      exact_mod_cast hsplit.symm
    rw [hm1, neg_div, add_div, mul_div_cancel_left₀ _ h10]

/-- Decode-side value lemma for negative scale: the text rendered by the
`dscale < 0` arm of `_FQformatDatum` denotes exactly `value / 10^N`. -/
lemma textRatValue_formatScaledInt_neg (N : Nat) (hN : 1 ≤ N) (v : Int) :
    textRatValue (formatScaledInt (-(N : Int)) v) = (v : ℚ) / 10 ^ N := by
  cases v with
  | ofNat n =>
    have h := textRatValue_formatScaledInt_neg_nonneg N n hN
    simpa using h
  | negSucc m =>
    have h := textRatValue_formatScaledInt_neg_neg N m hN
    rw [h]
    congr 1

lemma isDigitB_ne_plus {c : Char} (h : isDigitB c = true) : c ≠ '+' := by
  intro hc; subst hc; simp [isDigitB] at h

lemma scanDigits_digits_append {d rest : List Char} (hne : d ≠ [])
    (hd : ∀ c ∈ d, isDigitB c = true)
    (hrest : rest = [] ∨ ∃ c t, rest = c :: t ∧ isDigitB c = false) :
    scanDigits (d ++ rest) = some (digitsToNat d, rest) := by
  unfold scanDigits
  rw [takeWhile_digits_append_stop hd hrest]
  rw [if_neg (by simpa using hne)]
  rw [List.drop_left]

lemma scanDigits_stop {s : List Char}
    (h : s = [] ∨ ∃ c t, s = c :: t ∧ isDigitB c = false) :
    scanDigits s = none := by
  rcases h with h | ⟨c, t, h, hc⟩
  · subst h; rfl
  · subst h
    simp [scanDigits, List.takeWhile_cons, hc]

lemma scanSigned_cons (c : Char) (rest : List Char) :
    scanSigned (c :: rest) =
      if c = '-' then (scanDigits rest).map (fun pr => (-(pr.1 : Int), pr.2))
      else if c = '+' then (scanDigits rest).map (fun pr => ((pr.1 : Int), pr.2))
      else (scanDigits (c :: rest)).map (fun pr => ((pr.1 : Int), pr.2)) := rfl

lemma scanSignedMax_cons (n : Nat) (c : Char) (rest : List Char) :
    scanSignedMax n (c :: rest) =
      if c = '-' then (scanDigitsMax (n - 1) rest).map (fun pr => (-(pr.1 : Int), pr.2))
      else if c = '+' then (scanDigitsMax (n - 1) rest).map (fun pr => ((pr.1 : Int), pr.2))
      else (scanDigitsMax n (c :: rest)).map (fun pr => ((pr.1 : Int), pr.2)) := rfl

lemma scanSigned_digits_append {d rest : List Char} (hne : d ≠ [])
    (hd : ∀ c ∈ d, isDigitB c = true)
    (hrest : rest = [] ∨ ∃ c t, rest = c :: t ∧ isDigitB c = false) :
    scanSigned (d ++ rest) = some ((digitsToNat d : Int), rest) := by
  obtain ⟨c, t, rfl⟩ : ∃ c t, d = c :: t := by
    cases d with
    | nil => exact absurd rfl hne
    | cons c t => exact ⟨c, t, rfl⟩
  have hc := hd c (by simp)
  rw [List.cons_append, scanSigned_cons,
    if_neg (isDigitB_ne_minus hc), if_neg (isDigitB_ne_plus hc), ← List.cons_append,
    scanDigits_digits_append hne hd hrest]
  rfl

lemma scanSigned_dot (rest : List Char) : scanSigned ('.' :: rest) = none := by
  rw [scanSigned_cons, if_neg (by decide), if_neg (by decide),
    scanDigits_stop (Or.inr ⟨'.', rest, rfl, by decide⟩)]
  rfl

lemma scanDigitsMax_all_digits {n : Nat} {F : List Char} (hn : 1 ≤ n) (hne : F ≠ [])
    (hF : ∀ c ∈ F, isDigitB c = true) :
    scanDigitsMax n F = some (digitsToNat (F.take n), F.drop (F.take n).length) := by
  unfold scanDigitsMax
  rw [takeWhile_digits_all hF, if_neg ?hempty]
  case hempty =>
    obtain ⟨c, t, rfl⟩ : ∃ c t, F = c :: t := by
      cases F with
      | nil => exact absurd rfl hne
      | cons c t => exact ⟨c, t, rfl⟩
    match n, hn with
    | n + 1, _ => simp

lemma scanSignedMax_all_digits {n : Nat} {F : List Char} (hn : 1 ≤ n) (hne : F ≠ [])
    (hF : ∀ c ∈ F, isDigitB c = true) :
    scanSignedMax n F =
      some ((digitsToNat (F.take n) : Int), F.drop (F.take n).length) := by
  obtain ⟨c, t, rfl⟩ : ∃ c t, F = c :: t := by
    cases F with
    | nil => exact absurd rfl hne
    | cons c t => exact ⟨c, t, rfl⟩
  have hc := hF c (by simp)
  rw [scanSignedMax_cons, if_neg (isDigitB_ne_minus hc), if_neg (isDigitB_ne_plus hc),
    scanDigitsMax_all_digits hn hne hF]
  rfl

lemma scanSignedMax_nil (n : Nat) : scanSignedMax n [] = none := rfl

/-- Evaluation of the fractional scans of the `sqlscale < 0` encode
branch on a digit run whose digits beyond position `N` are all zero:
`q` collects the first `N` digits and the rounding digit `r` is zero. -/
lemma scanQRAfterDot_eval {N : Nat} {F : List Char} (hN : 1 ≤ N) (hne : F ≠ [])
    (hF : ∀ c ∈ F, isDigitB c = true)
    (hrep : ∀ c ∈ F.drop N, c = '0') :
    scanQRAfterDot N F = ((digitsToNat (F.take N) : Int), 0) := by
  unfold scanQRAfterDot
  rw [scanSignedMax_all_digits hN hne hF]
  by_cases hf : F.length ≤ N
  · rw [List.take_of_length_le hf, List.drop_length]
    rfl
  · have hlen : (F.take N).length = N := by
      rw [List.length_take]; omega
    rw [hlen]
    obtain ⟨t, hct⟩ : ∃ t, F.drop N = '0' :: t := by
      cases h : F.drop N with
      | nil =>
        exfalso
        have hd : (F.drop N).length = F.length - N := List.length_drop N F
        rw [h] at hd
        simp at hd
        omega
      | cons c t =>
        have hc0 : c = '0' := hrep c (by rw [h]; simp)
        subst hc0
        exact ⟨t, rfl⟩
    rw [hct]
    have hts : ∀ c ∈ ('0' :: t : List Char), isDigitB c = true := by
      intro x hx
      have hx' : x ∈ F.drop N := by rw [hct]; exact hx
      rw [hrep x hx']; decide
    simp only [scanSignedMax_all_digits (le_refl 1) (List.cons_ne_nil _ _) hts]
    rfl

/-- Evaluation of the two sscanf attempts of the `sqlscale < 0` encode
branch on the unsigned body `D[.F]` of a parameter text. -/
lemma scanPQR_eval {N : Nat} {D F : List Char} (hN : 1 ≤ N)
    (hD : ∀ c ∈ D, isDigitB c = true) (hF : ∀ c ∈ F, isDigitB c = true)
    (hne : D ≠ [] ∨ F ≠ [])
    (hrep : ∀ c ∈ F.drop N, c = '0') :
    scanPQR N (D ++ (if F.isEmpty then [] else '.' :: F)) =
      ((digitsToNat D : Int), (digitsToNat (F.take N) : Int), 0) := by
  by_cases hDe : D = []
  · subst hDe
    have hFne : F ≠ [] := by
      rcases hne with h | h
      · exact absurd rfl h
      · exact h
    rw [if_neg (by simpa using hFne)]
    unfold scanPQR
    rw [List.nil_append, scanSigned_dot]
    show (if '.' = '.' then
            ((0 : Int), (scanQRAfterDot N F).1, (scanQRAfterDot N F).2)
          else ((0 : Int), 0, 0)) = _
    rw [if_pos rfl, scanQRAfterDot_eval hN hFne hF hrep]
    rfl
  · by_cases hFe : F = []
    · subst hFe
      rw [if_pos (by simp), List.append_nil]
      have hs : scanSigned D = some ((digitsToNat D : Int), []) := by
        have h := scanSigned_digits_append hDe hD (Or.inl rfl)
        rwa [List.append_nil] at h
      unfold scanPQR
      rw [hs, List.take_nil]
      rfl
    · rw [if_neg (by simpa using hFe)]
      unfold scanPQR
      rw [scanSigned_digits_append hDe hD (Or.inr ⟨'.', F, rfl, by decide⟩)]
      show (if '.' = '.' then
              ((digitsToNat D : Int), (scanQRAfterDot N F).1, (scanQRAfterDot N F).2)
            else ((digitsToNat D : Int), 0, 0)) = _
      rw [if_pos rfl, scanQRAfterDot_eval hN hFe hF hrep]

lemma negHack_cons_minus (b : List Char) : negHack ('-' :: b) = (true, b) := by
  unfold negHack
  rw [List.findIdx?_cons, if_pos (by simp)]
  rfl

lemma negHack_no_minus {b : List Char} (h : ∀ c ∈ b, c ≠ '-') :
    negHack b = (false, b) := by
  unfold negHack
  rw [findIdx?_not_found (by intro c hc; simp [h c hc])]

/-- Every character of the unsigned body `D[.F]` of a decimal text is a
digit or the decimal point, hence never a minus sign. -/
lemma body_no_minus {D F : List Char}
    (hD : ∀ c ∈ D, isDigitB c = true) (hF : ∀ c ∈ F, isDigitB c = true) :
    ∀ c ∈ D ++ (if F.isEmpty then [] else '.' :: F), c ≠ '-' := by
  intro c hc
  rw [List.mem_append] at hc
  rcases hc with hc | hc
  · exact isDigitB_ne_minus (hD c hc)
  · by_cases hFe : F.isEmpty
    · rw [if_pos hFe] at hc; simp at hc
    · rw [if_neg hFe] at hc
      rcases hc with _ | hc
      · decide
      · exact isDigitB_ne_minus (hF c (by assumption))

/-- Evaluation of the `sqlscale < 0` encode branch on the unsigned body
`D[.F]`: with the rounding digit zero, the stored integer is
`(D * 10^n + take-n-of-F * 10^(n - |F|)) * sign`. -/
lemma encodeScaledNegBranch_eval {n : Nat} (neg : Bool) {D F : List Char} (hn : 1 ≤ n)
    (hD : ∀ c ∈ D, isDigitB c = true) (hF : ∀ c ∈ F, isDigitB c = true)
    (hne : D ≠ [] ∨ F ≠ [])
    (hrep : ∀ c ∈ F.drop n, c = '0') :
    encodeScaledNegBranch n neg (D ++ (if F.isEmpty then [] else '.' :: F)) =
      ((digitsToNat D : Int) * 10 ^ n
        + (digitsToNat (F.take n) : Int) * 10 ^ (n - F.length))
        * (if neg then -1 else 1) := by
  have hr5 : ¬ ((0 : Int) ≥ 5) := by norm_num
  by_cases hFe : F = []
  · subst hFe
    have harg : (D ++ (if ([] : List Char).isEmpty then [] else '.' :: ([] : List Char)))
        = D := by simp
    rw [harg]
    have hs : scanPQR n D =
        ((digitsToNat D : Int), (digitsToNat (([] : List Char).take n) : Int), 0) := by
      have h := scanPQR_eval hn hD hF hne hrep
      rwa [harg] at h
    unfold encodeScaledNegBranch
    rw [hs, findIdx?_not_found (p := fun c => decide (c = '.')) (by
      intro c hc
      simp [isDigitB_ne_dot (hD c hc)])]
    simp only [if_neg hr5, Option.elim_none, List.take_nil]
    norm_num [digitsToNat]
  · have hFne : ¬ (F.isEmpty = true) := by simpa using hFe
    have harg : (D ++ (if F.isEmpty then [] else '.' :: F)) = D ++ '.' :: F := by
      rw [if_neg hFne]
    rw [harg]
    have hs : scanPQR n (D ++ '.' :: F) =
        ((digitsToNat D : Int), (digitsToNat (F.take n) : Int), 0) := by
      have h := scanPQR_eval hn hD hF hne hrep
      rwa [harg] at h
    have hlen : (D ++ '.' :: F).length = D.length + 1 + F.length := by
      simp [List.length_append]
      omega
    unfold encodeScaledNegBranch
    rw [hs, findIdx?_append_found (p := fun c => decide (c = '.')) (by
        intro c hc
        simp [isDigitB_ne_dot (hD c hc)]) (by simp)]
    simp only [if_neg hr5, Option.elim_some]
    by_cases hfn : F.length ≤ n
    · have hc1 : ¬ ((n : Int) - (((D ++ '.' :: F).length : Int) - (D.length : Int)) + 1 < 0) := by
        omega
      rw [if_neg hc1]
      have ht : ((n : Int) - (((D ++ '.' :: F).length : Int) - (D.length : Int)) + 1).toNat
          = n - F.length := by omega
      rw [ht]
    · have hc1 : (n : Int) - (((D ++ '.' :: F).length : Int) - (D.length : Int)) + 1 < 0 := by
        omega
      rw [if_pos hc1]
      have h0 : n - F.length = 0 := by omega
      rw [h0]
      rfl

/-- Scaled-integer encode on a structured decimal text, negative scale. -/
lemma encodeScaledText_neg_scale {N : Nat} (hN : 1 ≤ N) (neg : Bool) {D F : List Char}
    (hD : ∀ c ∈ D, isDigitB c = true) (hF : ∀ c ∈ F, isDigitB c = true)
    (hne : D ≠ [] ∨ F ≠ [])
    (hrep : ∀ c ∈ F.drop N, c = '0') :
    encodeScaledText (-(N : Int)) (mkDecimalText neg D F) =
      ((digitsToNat D : Int) * 10 ^ N
        + (digitsToNat (F.take N) : Int) * 10 ^ (N - F.length))
        * (if neg then -1 else 1) := by
  have hlt : (-(N : Int)) < 0 := by omega
  have hNtoNat : (-(-(N : Int))).toNat = N := by omega
  unfold encodeScaledText
  rw [if_pos hlt, hNtoNat]
  have hbody : mkDecimalText neg D F =
      (if neg then ['-'] else []) ++ (D ++ (if F.isEmpty then [] else '.' :: F)) := by
    unfold mkDecimalText
    rw [List.append_assoc]
  cases neg with
  | true =>
    rw [hbody]
    have hminus : (if true = true then ['-'] else ([] : List Char)) ++
        (D ++ (if F.isEmpty then [] else '.' :: F)) =
        '-' :: (D ++ (if F.isEmpty then [] else '.' :: F)) := by simp
    rw [hminus, negHack_cons_minus]
    exact encodeScaledNegBranch_eval true hN hD hF hne hrep
  | false =>
    rw [hbody]
    have hplain : (if false = true then ['-'] else ([] : List Char)) ++
        (D ++ (if F.isEmpty then [] else '.' :: F)) =
        D ++ (if F.isEmpty then [] else '.' :: F) := by simp
    rw [hplain, negHack_no_minus (body_no_minus hD hF)]
    exact encodeScaledNegBranch_eval false hN hD hF hne hrep

lemma scanSignedMax_one_zeros {F : List Char} (hne : F ≠ [])
    (hF0 : ∀ c ∈ F, c = '0') :
    scanSignedMax 1 F = some ((0 : Int), F.drop 1) := by
  have hF : ∀ c ∈ F, isDigitB c = true := by
    intro c hc; rw [hF0 c hc]; decide
  obtain ⟨t, rfl⟩ : ∃ t, F = '0' :: t := by
    match F, hne with
    | c :: t, _ =>
      have hc : c = '0' := hF0 c (by simp)
      subst hc
      exact ⟨t, rfl⟩
  rw [scanSignedMax_all_digits (le_refl 1) hne hF]
  rfl

/-- Evaluation of the two sscanf attempts of the `sqlscale >= 0` encode
branch on a structured decimal text whose fractional digits are all
zero: `p` carries the signed integer part and `r` is zero. -/
lemma scanPR_eval (neg : Bool) (D F : List Char)
    (hD : ∀ c ∈ D, isDigitB c = true) (hF0 : ∀ c ∈ F, c = '0')
    (hne : D ≠ [] ∨ F ≠ []) :
    scanPR (mkDecimalText neg D F) =
      ((if neg then -(digitsToNat D : Int) else (digitsToNat D : Int)), 0) := by
  have hbody : mkDecimalText neg D F =
      (if neg then ['-'] else []) ++ (D ++ (if F.isEmpty then [] else '.' :: F)) := by
    unfold mkDecimalText
    rw [List.append_assoc]
  by_cases hDe : D = []
  · subst hDe
    have hFne : F ≠ [] := by
      rcases hne with h | h
      · exact absurd rfl h
      · exact h
    have hX : (if F.isEmpty then [] else '.' :: F) = '.' :: F := by
      rw [if_neg (by simpa using hFne)]
    rw [hbody, hX, List.nil_append]
    cases neg with
    | false =>
      have hplain : (if false = true then ['-'] else ([] : List Char)) ++ '.' :: F
          = '.' :: F := by simp
      rw [hplain]
      unfold scanPR
      rw [scanSigned_dot]
      show (if '.' = '.' then
              (match scanSignedMax 1 F with
               | some (r, _) => ((0 : Int), r)
               | none => ((0 : Int), 0))
            else ((0 : Int), 0)) = _
      rw [if_pos rfl, scanSignedMax_one_zeros hFne hF0]
      rfl
    | true =>
      have hminus : (if true = true then ['-'] else ([] : List Char)) ++ '.' :: F
          = '-' :: '.' :: F := by simp
      rw [hminus]
      unfold scanPR
      rw [scanSigned_cons, if_pos rfl,
        scanDigits_stop (Or.inr ⟨'.', F, rfl, by decide⟩)]
      show (if '-' = '.' then
              (match scanSignedMax 1 ('.' :: F) with
               | some (r, _) => ((0 : Int), r)
               | none => ((0 : Int), 0))
            else ((0 : Int), 0)) = _
      rw [if_neg (by decide)]
      have hz : digitsToNat ([] : List Char) = 0 := rfl
      simp [digitsToNat]
  · have hstop : (if F.isEmpty then [] else '.' :: F) = [] ∨
        ∃ c t, (if F.isEmpty then [] else '.' :: F) = c :: t ∧ isDigitB c = false := by
      by_cases hFe : F.isEmpty
      · exact Or.inl (by rw [if_pos hFe])
      · exact Or.inr ⟨'.', F, by rw [if_neg hFe], by decide⟩
    have hrtail : ∀ p : Int,
        (match (if F.isEmpty then [] else '.' :: F) with
         | c :: rest2 =>
           if c = '.' then
             (match scanSignedMax 1 rest2 with
              | some (r, _) => (p, r)
              | none => (p, 0))
           else (p, 0)
         | [] => (p, 0)) = (p, 0) := by
      intro p
      by_cases hFe : F.isEmpty
      · rw [if_pos hFe]
      · rw [if_neg hFe]
        have hFne : F ≠ [] := by simpa using hFe
        show (if '.' = '.' then
                (match scanSignedMax 1 F with
                 | some (r, _) => (p, r)
                 | none => (p, 0))
              else (p, 0)) = _
        rw [if_pos rfl, scanSignedMax_one_zeros hFne hF0]
    cases neg with
    | false =>
      have hplain : (if false = true then ['-'] else ([] : List Char)) ++
          (D ++ (if F.isEmpty then [] else '.' :: F))
          = D ++ (if F.isEmpty then [] else '.' :: F) := by simp
      rw [hbody, hplain]
      unfold scanPR
      rw [scanSigned_digits_append hDe hD hstop]
      exact hrtail _
    | true =>
      have hminus : (if true = true then ['-'] else ([] : List Char)) ++
          (D ++ (if F.isEmpty then [] else '.' :: F))
          = '-' :: (D ++ (if F.isEmpty then [] else '.' :: F)) := by simp
      rw [hbody, hminus]
      unfold scanPR
      rw [scanSigned_cons, if_pos rfl, scanDigits_digits_append hDe hD hstop]
      exact hrtail _

/-- Scaled-integer encode on a structured decimal text, zero scale:
with an all-zero fractional part no rounding happens and the signed
integer part is stored unchanged. -/
lemma encodeScaledText_zero_scale (neg : Bool) {D F : List Char}
    (hD : ∀ c ∈ D, isDigitB c = true) (hF0 : ∀ c ∈ F, c = '0')
    (hne : D ≠ [] ∨ F ≠ []) :
    encodeScaledText 0 (mkDecimalText neg D F) =
      (if neg then -(digitsToNat D : Int) else (digitsToNat D : Int)) := by
  unfold encodeScaledText
  rw [if_neg (by omega)]
  unfold encodeScaledZeroBranch
  rw [scanPR_eval neg D F hD hF0 hne]
  have hr5 : ¬ ((0 : Int) ≥ 5) := by norm_num
  simp only [if_neg hr5]

/-- Mathematical value of a structured decimal text. -/
lemma textRatValue_mkDecimalText (neg : Bool) {D F : List Char}
    (hD : ∀ c ∈ D, isDigitB c = true) (hF : ∀ c ∈ F, isDigitB c = true)
    (hne : D ≠ [] ∨ F ≠ []) :
    textRatValue (mkDecimalText neg D F) =
      (if neg then (-1 : ℚ) else 1) *
        ((digitsToNat D : ℚ) + (digitsToNat F : ℚ) / 10 ^ F.length) := by
  have hbody : mkDecimalText neg D F =
      (if neg then ['-'] else []) ++ (D ++ (if F.isEmpty then [] else '.' :: F)) := by
    unfold mkDecimalText
    rw [List.append_assoc]
  have hposval : textRatValuePos (D ++ (if F.isEmpty then [] else '.' :: F)) =
      (digitsToNat D : ℚ) + (digitsToNat F : ℚ) / 10 ^ F.length := by
    by_cases hFe : F = []
    · subst hFe
      have hX : (if ([] : List Char).isEmpty then [] else '.' :: ([] : List Char))
          = [] := by simp
      rw [hX, List.append_nil, textRatValuePos_digits_only hD]
      norm_num [digitsToNat]
    · have hX : (if F.isEmpty then [] else '.' :: F) = '.' :: F := by
        rw [if_neg (by simpa using hFe)]
      rw [hX, textRatValuePos_digits_dot_digits hD hF]
  cases neg with
  | true =>
    have hminus : (if true = true then ['-'] else ([] : List Char)) ++
        (D ++ (if F.isEmpty then [] else '.' :: F))
        = '-' :: (D ++ (if F.isEmpty then [] else '.' :: F)) := by simp
    rw [hbody, hminus, textRatValue_cons_minus, hposval,
      show (if true = true then (-1 : ℚ) else 1) = -1 from rfl]
    ring
  | false =>
    have hplain : (if false = true then ['-'] else ([] : List Char)) ++
        (D ++ (if F.isEmpty then [] else '.' :: F))
        = D ++ (if F.isEmpty then [] else '.' :: F) := by simp
    rw [hbody, hplain]
    have hval : textRatValue (D ++ (if F.isEmpty then [] else '.' :: F)) =
        textRatValuePos (D ++ (if F.isEmpty then [] else '.' :: F)) := by
      by_cases hDe : D = []
      · subst hDe
        have hFne : F ≠ [] := by
          rcases hne with h | h
          · exact absurd rfl h
          · exact h
        have hX : (if F.isEmpty then [] else '.' :: F) = '.' :: F := by
          rw [if_neg (by simpa using hFne)]
        rw [hX, List.nil_append]
        exact textRatValue_cons_not_minus (by decide)
      · obtain ⟨c, t, rfl⟩ : ∃ c t, D = c :: t := by
          match D, hDe with
          | c :: t, _ => exact ⟨c, t, rfl⟩
        rw [List.cons_append]
        exact textRatValue_cons_not_minus (isDigitB_ne_minus (hD c (by simp)))
    rw [hval, hposval,
      show (if false = true then (-1 : ℚ) else 1) = 1 from rfl]
    ring

/-- Two's-complement wrap is the identity inside the representable
range. -/
lemma wrapSigned_eq_self {bits : Nat} {x : Int} (hb : 1 ≤ bits)
    (hlo : -(2 ^ (bits - 1)) ≤ x) (hhi : x < 2 ^ (bits - 1)) :
    wrapSigned bits x = x := by
  unfold wrapSigned
  have h2 : (2 : Int) ^ bits = 2 ^ (bits - 1) * 2 := by
    rw [← pow_succ]
    congr 1
    omega
  have hP : (0 : Int) < 2 ^ (bits - 1) := by positivity
  rw [h2, Int.emod_eq_of_lt (by omega) (by omega)]
  omega

/-- The scaled integer computed by the encode path denotes exactly the
text's mathematical value, scaled by `10^N` (representability: all
fractional digits beyond position `N` are zero). -/
lemma scaled_value_relation {N : Nat} {D F : List Char}
    (hrep : ∀ c ∈ F.drop N, c = '0') :
    (((digitsToNat D : Int) * 10 ^ N
        + (digitsToNat (F.take N) : Int) * 10 ^ (N - F.length) : Int) : ℚ) / 10 ^ N
      = (digitsToNat D : ℚ) + (digitsToNat F : ℚ) / 10 ^ F.length := by
  have h10 : ((10 : ℚ) ^ N) ≠ 0 := by positivity
  by_cases hfn : F.length ≤ N
  · have htake : F.take N = F := List.take_of_length_le hfn
    have hpow : (10 : ℚ) ^ (N - F.length) * 10 ^ F.length = 10 ^ N := by
      rw [← pow_add]
      congr 1
      omega
    rw [htake]
    push_cast
    rw [add_div, mul_div_cancel_right₀ _ h10]
    congr 1
    rw [← hpow, mul_comm ((10 : ℚ) ^ (N - F.length)) (10 ^ F.length),
      mul_div_mul_right _ _ (by positivity : ((10 : ℚ) ^ (N - F.length)) ≠ 0)]
  · have hN0 : N - F.length = 0 := by omega
    have hsplitF : digitsToNat F =
        digitsToNat (F.take N) * 10 ^ (F.length - N) := by
      conv_lhs => rw [← List.take_append_drop N F]
      rw [digitsToNat_append, digitsToNat_all_zero hrep, List.length_drop]
      omega
    have hpow : (10 : ℚ) ^ (F.length - N) * 10 ^ N = 10 ^ F.length := by
      rw [← pow_add]
      congr 1
      omega
    rw [hN0, hsplitF]
    push_cast
    rw [add_div, mul_div_cancel_right₀ _ h10]
    congr 1
    rw [mul_one, div_eq_div_iff (by positivity) (by positivity), ← hpow]
    ring

/-- Decode-side value lemma for zero scale: the plain-integer arm of
`_FQformatDatum` denotes exactly `value`. -/
lemma textRatValue_formatScaledInt_zero (v : Int) :
    textRatValue (formatScaledInt 0 v) = (v : ℚ) := by
  have h1 : ¬ ((0 : Int) < 0) := by omega
  have h2 : ¬ ((0 : Int) ≠ 0) := by omega
  unfold formatScaledInt
  rw [if_neg h1, if_neg h2]
  cases v with
  | ofNat n =>
    have hnlt : ¬ ((Int.ofNat n) < 0) := by
      simp only [not_lt]
      exact Int.ofNat_nonneg n
    unfold intToChars
    rw [if_neg hnlt]
    have htn : (Int.ofNat n).toNat = n := rfl
    rw [htn, textRatValue_digits_only (natToDigits_ne_nil n) (natToDigits_all_digit n),
      digitsToNat_natToDigits]
    rfl
  | negSucc m =>
    have hlt : (Int.negSucc m) < 0 := Int.negSucc_lt_zero m
    unfold intToChars
    rw [if_pos hlt]
    have habs : (Int.negSucc m).natAbs = m + 1 := rfl
    rw [habs, textRatValue_cons_minus,
      textRatValuePos_digits_only (natToDigits_all_digit _), digitsToNat_natToDigits]
    push_cast [Int.negSucc_eq]
    ring

/- ====================================================================
   Claim theorems
   ==================================================================== -/

/-- Round-trip at the RENDERING level (`format_buffer` content, before
the destination-buffer copy): representable in-range values encode and
render back to the same numeric value. -/
lemma roundtrip_full_render (t : ScaledType) (sqlscale : Int) (neg : Bool)
    (D F : List Char)
    (hsc : sqlscale ≤ 0)
    (hD : ∀ c ∈ D, isDigitB c = true) (hF : ∀ c ∈ F, isDigitB c = true)
    (hne : D ≠ [] ∨ F ≠ [])
    (hrep : ∀ c ∈ F.drop (-sqlscale).toNat, c = '0')
    (hlo : -(2 ^ (t.bits - 1)) ≤ encodeScaledText sqlscale (mkDecimalText neg D F))
    (hhi : encodeScaledText sqlscale (mkDecimalText neg D F) < 2 ^ (t.bits - 1)) :
    textRatValue (formatScaledInt sqlscale
      (storeScaled t (encodeScaledText sqlscale (mkDecimalText neg D F))))
      = textRatValue (mkDecimalText neg D F) := by
  have hbits : 1 ≤ t.bits := by cases t <;> decide
  have hstore : storeScaled t (encodeScaledText sqlscale (mkDecimalText neg D F))
      = encodeScaledText sqlscale (mkDecimalText neg D F) := by
    unfold storeScaled
    exact wrapSigned_eq_self hbits hlo hhi
  rw [hstore]
  by_cases h0 : sqlscale = 0
  · subst h0
    have hrep0 : ∀ c ∈ F, c = '0' := by
      intro c hc
      exact hrep c (by simpa using hc)
    rw [encodeScaledText_zero_scale neg hD hrep0 hne, textRatValue_formatScaledInt_zero,
      textRatValue_mkDecimalText neg hD hF hne]
    have hvalF : digitsToNat F = 0 := digitsToNat_all_zero hrep0
    rw [hvalF]
    cases neg with
    | true =>
      push_cast
      simp
    | false =>
      push_cast
      simp
  · set N := (-sqlscale).toNat with hNdef
    have hNpos : 1 ≤ N := by omega
    have hs : sqlscale = -(N : Int) := by omega
    rw [hs]
    rw [encodeScaledText_neg_scale hNpos neg hD hF hne hrep,
      textRatValue_formatScaledInt_neg N hNpos _,
      textRatValue_mkDecimalText neg hD hF hne]
    have hrel := scaled_value_relation (N := N) (D := D) (F := F) hrep
    cases neg with
    | true =>
      rw [show (if true = true then (-1 : Int) else 1) = -1 from rfl,
        show (if true = true then (-1 : ℚ) else 1) = -1 from rfl, mul_neg_one]
      push_cast at hrel ⊢
      rw [neg_div, hrel]
      ring
    | false =>
      rw [show (if false = true then (-1 : Int) else 1) = 1 from rfl,
        show (if false = true then (-1 : ℚ) else 1) = 1 from rfl, mul_one, one_mul]
      push_cast at hrel ⊢
      exact hrel

/-- C1 (amended): for every parameter bound to a scaled integer column
(SQL_SHORT, SQL_LONG or SQL_INT64) with scale in -9..0 — beyond -9 the
encode path's `(int) pow(10.0, -sqlscale)` overflows `int` — whose text
value is representable at the column's scale (fractional digits beyond
the scale all zero, scaled integer in the native range) and whose
decoded rendering fits the decode buffer (at most
`field_width + sqlscale - 1` characters when `sqlscale < 0`; negative
values wider than that are truncated by the decode's `memcpy`, see the
counterexample, and nonnegative values wider than that overflow the
allocation), encoding the text into the native stored integer and then
decoding that stored integer back to text yields the same numeric value
as the original text. -/
theorem scaled_integer_roundtrip (t : ScaledType) (sqlscale : Int) (neg : Bool)
    (D F : List Char)
    (hsc : sqlscale ≤ 0) (hsc9 : -9 ≤ sqlscale)
    (hD : ∀ c ∈ D, isDigitB c = true) (hF : ∀ c ∈ F, isDigitB c = true)
    (hne : D ≠ [] ∨ F ≠ [])
    (hrep : ∀ c ∈ F.drop (-sqlscale).toNat, c = '0')
    (hlo : -(2 ^ (t.bits - 1)) ≤ encodeScaledText sqlscale (mkDecimalText neg D F))
    (hhi : encodeScaledText sqlscale (mkDecimalText neg D F) < 2 ^ (t.bits - 1))
    (hfit : sqlscale < 0 →
      ((formatScaledInt sqlscale
          (storeScaled t (encodeScaledText sqlscale (mkDecimalText neg D F)))).length : Int)
        ≤ field_width t + sqlscale - 1) :
    textRatValue (formatDatumScaledText t sqlscale
      (storeScaled t (encodeScaledText sqlscale (mkDecimalText neg D F))))
      = textRatValue (mkDecimalText neg D F) := by
  have hfull : formatDatumScaledText t sqlscale
      (storeScaled t (encodeScaledText sqlscale (mkDecimalText neg D F)))
      = formatScaledInt sqlscale
          (storeScaled t (encodeScaledText sqlscale (mkDecimalText neg D F))) := by
    unfold formatDatumScaledText
    by_cases hneg : sqlscale < 0
    · rw [if_pos hneg]
      by_cases hge : storeScaled t (encodeScaledText sqlscale (mkDecimalText neg D F)) ≥ 0
      · rw [if_pos hge]
      · rw [if_neg hge]
        apply List.take_of_length_le
        have hlen := hfit hneg
        omega
    · rw [if_neg hneg]
  rw [hfull]
  exact roundtrip_full_render t sqlscale neg D F hsc hD hF hne hrep hlo hhi

/-- C1 witness: "1.5" bound to an SQL_LONG column at scale -2 (scale in
-9..0, value in range, rendering "1.50" fits the 9-character buffer)
encodes to 150, decodes to "1.50", and the numeric values agree. -/
theorem scaled_integer_roundtrip_witness :
    textRatValue (formatDatumScaledText .long (-2)
      (storeScaled .long (encodeScaledText (-2) (mkDecimalText false ['1'] ['5']))))
      = textRatValue (mkDecimalText false ['1'] ['5']) :=
  scaled_integer_roundtrip .long (-2) false ['1'] ['5'] (by decide) (by decide)
    (by decide) (by decide) (Or.inl (by decide)) (by decide) (by decide) (by decide)
    (by decide)

/-- C1 counterexample (to the unamended claim): at SQL_SHORT scale -1
the text "-3276.8" is representable — it encodes to -32768, which the
16-bit store keeps exactly — yet the decode truncates: the rendering
"-3276.8" is 7 characters, `buflen - 1 = field_width + dscale - 1 = 4`,
so `memcpy(p, format_buffer, buflen - 1)` yields "-327", a different
numeric value; the round-trip fails inside the original claim's domain. -/
theorem scaled_truncation_counterexample :
    encodeScaledText (-1) "-3276.8".toList = -32768 ∧
    storeScaled .short (-32768) = -32768 ∧
    formatDatumScaledText .short (-1) (-32768) = "-327".toList ∧
    textRatValue (formatDatumScaledText .short (-1)
        (storeScaled .short (encodeScaledText (-1) "-3276.8".toList)))
      ≠ textRatValue "-3276.8".toList := by
  refine ⟨by decide, by decide, by decide, ?_⟩
  have h1 : formatDatumScaledText .short (-1)
      (storeScaled .short (encodeScaledText (-1) "-3276.8".toList))
      = "-327".toList := by decide
  rw [h1]
  have h2 : textRatValue "-327".toList = -327 := by
    show textRatValue ('-' :: ['3', '2', '7']) = -327
    rw [textRatValue_cons_minus, textRatValuePos_digits_only (by decide)]
    rw [show digitsToNat ['3', '2', '7'] = 327 from by decide]
    norm_num
  have h3 : textRatValue "-3276.8".toList = -(3276 + (8 : ℚ) / 10) := by
    show textRatValue ('-' :: (['3', '2', '7', '6'] ++ '.' :: ['8'])) = _
    rw [textRatValue_cons_minus, textRatValuePos_digits_dot_digits (by decide) (by decide)]
    rw [show digitsToNat ['3', '2', '7', '6'] = 3276 from by decide,
      show digitsToNat ['8'] = 8 from by decide]
    norm_num
  rw [h2, h3]
  norm_num

/-- C2: encoding the parameter text "-0.5" for a 32-bit scaled integer
column (SQL_LONG) with scale -1 stores the native integer -5, and
decoding the stored value -5 at scale -1 produces exactly the text
"-0.5" (a leading minus attached to the zero integer part, not "0.5"
and not "0.-5") — both as rendered and after the destination-buffer
copy (4 characters fit the 9-character buffer; no truncation). -/
theorem negative_fractional_boundary :
    encodeScaledText (-1) "-0.5".toList = -5 ∧
    storeScaled .long (encodeScaledText (-1) "-0.5".toList) = -5 ∧
    formatScaledInt (-1) (storeScaled .long (encodeScaledText (-1) "-0.5".toList))
      = "-0.5".toList ∧
    formatDatumScaledText .long (-1)
        (storeScaled .long (encodeScaledText (-1) "-0.5".toList))
      = "-0.5".toList := by
  refine ⟨by decide, by decide, by decide, by decide⟩

/-- C4: describing a row-returning statement with a column count at most
the initial 15-slot capacity never reallocates the output descriptor
array; a greater count triggers exactly one reallocation sized to
exactly the reported count, followed by one re-issued describe whose
reported count becomes the stored column count. -/
theorem descriptor_negotiation (describe : Nat → Nat) :
    (describe FB_XSQLDA_INITLEN ≤ 15 →
      negotiateDescribe describe = ⟨0, 15, describe FB_XSQLDA_INITLEN⟩) ∧
    (15 < describe FB_XSQLDA_INITLEN →
      negotiateDescribe describe =
        ⟨1, describe FB_XSQLDA_INITLEN, describe (describe FB_XSQLDA_INITLEN)⟩) := by
  unfold negotiateDescribe FB_XSQLDA_INITLEN
  constructor
  · intro h
    rw [if_neg (by omega)]
  · intro h
    rw [if_pos h]

/-- C4 witness: a statement reporting 20 columns reallocates once to
capacity 20 and stores the second describe's count. -/
theorem descriptor_negotiation_witness :
    negotiateDescribe (fun _ => 20) = ⟨1, 20, 20⟩ :=
  (descriptor_negotiation (fun _ => 20)).2 (by decide)

/-- C5 counterexample: with autocommit on and no explicit user
transaction, a non-row-returning statement whose execute step FAILS
returns fatal-error with the default transaction handle STILL SET: the
non-row non-DDL execute failure path of `_FQexec` performs no rollback,
so the claim that any execution failure rolls the transaction back and
leaves the handle unset is false. -/
theorem autocommit_rollback_counterexample :
    (fqExec ⟨false, false, true⟩ .otherNonRow ⟨true, true, true, true, false, true⟩).status
        = .fatalError ∧
    (fqExec ⟨false, false, true⟩ .otherNonRow
        ⟨true, true, true, true, false, true⟩).conn.trans = true := by
  refine ⟨by decide, by decide⟩

/-- C5 amended: with autocommit on and no explicit user transaction in
force (alloc/prepare/info/describe succeeding): a ROW-RETURNING
statement always leaves the default transaction handle unset on return —
committed after the fetch loop on success, rolled back on execute or
fetch failure; a DDL statement likewise always leaves the handle unset —
committed on success, rolled back on execute failure; any other
non-row-returning statement commits on success (handle unset), but on
execute failure returns fatal-error with NO commit or rollback, leaving
the implicitly started default transaction handle set.  And after an
explicit SET TRANSACTION, for any ordinary statement whose engine calls
all succeed, no autocommit-driven commit or rollback fires and
FQisActiveTransaction stays true. -/
theorem autocommit_state_machine (c : ConnTx) (e : EngineResp) :
    (c.autocommit = true → c.in_user_transaction = false →
      e.allocOk = true → e.prepareOk = true → e.infoOk = true → e.describeOk = true →
      ((fqExec c .rowReturning e).conn.trans = false ∧
        ((fqExec c .rowReturning e).status = .tuplesOk ↔
          e.executeOk = true ∧ e.fetchOk = true) ∧
        (fqExec c .rowReturning e).conn.in_user_transaction = false) ∧
      ((fqExec c .ddl e).conn.trans = false ∧
        ((fqExec c .ddl e).status = .commandOk ↔ e.executeOk = true)) ∧
      (e.executeOk = true →
        (fqExec c .otherNonRow e).conn.trans = false ∧
        (fqExec c .otherNonRow e).status = .commandOk) ∧
      (e.executeOk = false →
        (fqExec c .otherNonRow e).conn.trans = true ∧
        (fqExec c .otherNonRow e).status = .fatalError)) ∧
    (∀ cls, c.trans = true → c.in_user_transaction = true →
      cls ≠ .startTrans → cls ≠ .commitStmt → cls ≠ .rollbackStmt →
      e.allocOk = true → e.prepareOk = true → e.infoOk = true → e.describeOk = true →
      e.executeOk = true → e.fetchOk = true →
      (fqExec c cls e).conn.trans = true ∧
      FQisActiveTransaction (some (fqExec c cls e).conn) = true) := by
  obtain ⟨ct, cu, ca⟩ := c
  obtain ⟨ea, ep, ei, ed, ex, ef⟩ := e
  constructor
  · intro h1 h2 h3 h4 h5 h6
    simp only at h1 h2 h3 h4 h5 h6
    subst h1; subst h2; subst h3; subst h4; subst h5; subst h6
    cases ct <;> cases ex <;> cases ef <;> decide
  · intro cls h1 h2 h3 h4 h5 h6 h7 h8 h9 h10 h11
    simp only at h1 h2 h6 h7 h8 h9 h10 h11
    subst h1; subst h2; subst h6; subst h7; subst h8; subst h9; subst h10; subst h11
    cases cls with
    | startTrans => exact absurd rfl h3
    | commitStmt => exact absurd rfl h4
    | rollbackStmt => exact absurd rfl h5
    | ddl => cases ca <;> decide
    | otherNonRow => cases ca <;> decide
    | rowReturning => cases ca <;> decide

/-- C5 amended witness: a successful SELECT under autocommit leaves no
transaction open, a successful DDL statement commits, and a statement
inside an explicit transaction leaves it active. -/
theorem autocommit_state_machine_witness :
    ((fqExec ⟨false, false, true⟩ .rowReturning
        ⟨true, true, true, true, true, true⟩).conn.trans = false ∧
      ((fqExec ⟨false, false, true⟩ .rowReturning
          ⟨true, true, true, true, true, true⟩).status = .tuplesOk ↔
        true = true ∧ true = true) ∧
      (fqExec ⟨false, false, true⟩ .rowReturning
        ⟨true, true, true, true, true, true⟩).conn.in_user_transaction = false) ∧
    ((fqExec ⟨false, false, true⟩ .ddl
        ⟨true, true, true, true, true, true⟩).conn.trans = false ∧
      ((fqExec ⟨false, false, true⟩ .ddl
          ⟨true, true, true, true, true, true⟩).status = .commandOk ↔ true = true)) ∧
    ((fqExec ⟨true, true, true⟩ .rowReturning
        ⟨true, true, true, true, true, true⟩).conn.trans = true ∧
      FQisActiveTransaction (some (fqExec ⟨true, true, true⟩ .rowReturning
        ⟨true, true, true, true, true, true⟩).conn) = true) :=
  ⟨((autocommit_state_machine ⟨false, false, true⟩
      ⟨true, true, true, true, true, true⟩).1 rfl rfl rfl rfl rfl rfl).1,
   ((autocommit_state_machine ⟨false, false, true⟩
      ⟨true, true, true, true, true, true⟩).1 rfl rfl rfl rfl rfl rfl).2.1,
   (autocommit_state_machine ⟨true, true, true⟩
      ⟨true, true, true, true, true, true⟩).2 .rowReturning rfl rfl
      (by decide) (by decide) (by decide) rfl rfl rfl rfl rfl rfl⟩

/-- C6: an explicit SET TRANSACTION while a transaction is active is
rejected with a non-fatal warning and leaves the state unchanged, and
otherwise starts a transaction and raises the explicit-transaction
flag; an explicit COMMIT or ROLLBACK with no active transaction is
rejected with a non-fatal warning, and otherwise performs the action and
clears the flag; no rejection produces a fatal-error status. -/
theorem explicit_transaction_statements (c : ConnTx) (e : EngineResp)
    (ha : e.allocOk = true) (hp : e.prepareOk = true) (hi : e.infoOk = true) :
    (c.trans = true →
      fqExec c .startTrans e = ⟨c, .emptyQuery, some .currentlyInTransaction⟩) ∧
    (c.trans = false →
      fqExec c .startTrans e =
        ⟨{ c with trans := true, in_user_transaction := true },
         .transactionStart, none⟩) ∧
    (c.trans = true →
      fqExec c .commitStmt e =
        ⟨{ c with trans := false, in_user_transaction := false },
         .transactionCommit, none⟩) ∧
    (c.trans = false →
      fqExec c .commitStmt e =
        ⟨{ c with in_user_transaction := false }, .emptyQuery,
         some .notCurrentlyInTransaction⟩) ∧
    (c.trans = true →
      fqExec c .rollbackStmt e =
        ⟨{ c with trans := false, in_user_transaction := false },
         .transactionRollback, none⟩) ∧
    (c.trans = false →
      fqExec c .rollbackStmt e =
        ⟨{ c with in_user_transaction := false }, .emptyQuery,
         some .notCurrentlyInTransaction⟩) ∧
    (∀ cls, (fqExec c cls e).warning.isSome →
      (fqExec c cls e).status = .emptyQuery) := by
  obtain ⟨ct, cu, ca⟩ := c
  obtain ⟨ea, ep, ei, ed, ex, ef⟩ := e
  simp only at ha hp hi
  subst ha; subst hp; subst hi
  refine ⟨?_, ?_, ?_, ?_, ?_, ?_, ?_⟩
  · cases ct <;> cases cu <;> cases ca <;> cases ed <;> cases ex <;> cases ef <;> decide
  · cases ct <;> cases cu <;> cases ca <;> cases ed <;> cases ex <;> cases ef <;> decide
  · cases ct <;> cases cu <;> cases ca <;> cases ed <;> cases ex <;> cases ef <;> decide
  · cases ct <;> cases cu <;> cases ca <;> cases ed <;> cases ex <;> cases ef <;> decide
  · cases ct <;> cases cu <;> cases ca <;> cases ed <;> cases ex <;> cases ef <;> decide
  · cases ct <;> cases cu <;> cases ca <;> cases ed <;> cases ex <;> cases ef <;> decide
  · intro cls
    cases cls <;> cases ct <;> cases cu <;> cases ca <;> cases ed <;> cases ex <;>
      cases ef <;> decide

/-- C6 witness: a redundant SET TRANSACTION inside an active transaction
yields the non-fatal empty-query status with a warning, state
unchanged. -/
theorem explicit_transaction_statements_witness :
    fqExec ⟨true, true, true⟩ .startTrans ⟨true, true, true, true, true, true⟩
      = ⟨⟨true, true, true⟩, .emptyQuery, some .currentlyInTransaction⟩ :=
  (explicit_transaction_statements ⟨true, true, true⟩
    ⟨true, true, true, true, true, true⟩ rfl rfl rfl).1 rfl

/-- Characters are equal when their code points are. -/
lemma char_eq_of_toNat_eq {a b : Char} (h : a.toNat = b.toNat) : a = b :=
  Char.ext (UInt32.toNat.inj h)

/-- Null/value exclusivity of one decoded cell. -/
lemma formatDatum_null_iff (nullable : Bool) (sqlind : Int) (d : Datum) :
    (_FQformatDatum nullable sqlind d).has_null = true ↔
      (_FQformatDatum nullable sqlind d).value = none := by
  unfold _FQformatDatum
  by_cases h : nullable = true ∧ sqlind < 0
  · rw [if_pos h]
    simp
  · rw [if_neg h]
    simp

/-- C3: for every decoded cell, `has_null` is true exactly when the text
value is NULL (a null indicator short-circuits decoding; every other
cell gets a non-NULL text, with a placeholder on formatting problems);
consequently, on a populated result whose cells come from
`_FQformatDatum`, `FQgetisnull` returns 1 exactly when `FQgetvalue`
returns NULL, for valid row and column indices. -/
theorem null_exclusivity :
    (∀ (nullable : Bool) (sqlind : Int) (d : Datum),
      ((_FQformatDatum nullable sqlind d).has_null = true ↔
        (_FQformatDatum nullable sqlind d).value = none)) ∧
    (∀ res : FBresultModel,
      (∀ row ∈ res.tuples, ∀ cell ∈ row,
        ∃ nullable sqlind d, cell = _FQformatDatum nullable sqlind d) →
      res.ntups = res.tuples.length →
      (∀ row ∈ res.tuples, row.length = res.ncols.toNat) →
      ∀ r c : Int, check_tuple_field_number (some res) r c = true →
        (FQgetisnull (some res) r c = 1 ↔ FQgetvalue (some res) r c = none)) := by
  constructor
  · exact formatDatum_null_iff
  · intro res hcells hnt hrows r c hcheck
    have hbounds : 0 ≤ r ∧ r < res.ntups ∧ 0 ≤ c ∧ c < res.ncols := by
      have hc2 : (if r < 0 ∨ r ≥ res.ntups then false
          else if c < 0 ∨ c ≥ res.ncols then false else true) = true := hcheck
      by_cases h1 : r < 0 ∨ r ≥ res.ntups
      · rw [if_pos h1] at hc2
        simp at hc2
      · by_cases h2 : c < 0 ∨ c ≥ res.ncols
        · rw [if_neg h1, if_pos h2] at hc2
          simp at hc2
        · push_neg at h1 h2
          exact ⟨h1.1, h1.2, h2.1, h2.2⟩
    obtain ⟨h0r, hrn, h0c, hcn⟩ := hbounds
    have hrlen : r.toNat < res.tuples.length := by omega
    have hrowmem : res.tuples[r.toNat] ∈ res.tuples := List.getElem_mem hrlen
    have hrl : (res.tuples[r.toNat]).length = res.ncols.toNat := hrows _ hrowmem
    have hclen : c.toNat < (res.tuples[r.toNat]).length := by
      rw [hrl]; omega
    have hcell : tupleCell res r c = (res.tuples[r.toNat])[c.toNat] := by
      unfold tupleCell
      rw [List.getD_eq_getElem _ _ hrlen, List.getD_eq_getElem _ _ hclen]
    have hcellmem : (res.tuples[r.toNat])[c.toNat] ∈ res.tuples[r.toNat] :=
      List.getElem_mem hclen
    obtain ⟨nullable, sqlind, d, hd⟩ := hcells _ hrowmem _ hcellmem
    have hiff := formatDatum_null_iff nullable sqlind d
    have hgv : FQgetvalue (some res) r c = (_FQformatDatum nullable sqlind d).value := by
      unfold FQgetvalue
      simp only [hcheck, Bool.not_true, Option.getD_some]
      rw [if_neg (by simp : ¬ (false = true)), hcell, hd]
    have hgn : FQgetisnull (some res) r c =
        if (_FQformatDatum nullable sqlind d).has_null then 1 else 0 := by
      unfold FQgetisnull
      simp only [hcheck, Bool.not_true, Option.getD_some]
      rw [if_neg (by simp : ¬ (false = true))]
      simp only [hcell, hd]
    rw [hgv, hgn]
    by_cases hn : (_FQformatDatum nullable sqlind d).has_null = true
    · rw [if_pos hn]
      simp [hiff.mp hn]
    · rw [if_neg hn]
      have hv : (_FQformatDatum nullable sqlind d).value ≠ none := fun h =>
        hn (hiff.mpr h)
      simp [hv]

/-- C3 witness: a one-row, one-column result holding a decoded boolean
cell satisfies the accessor-level equivalence at indices (0, 0). -/
theorem null_exclusivity_witness :
    FQgetisnull (some ⟨1, 1, [[_FQformatDatum false 0 (.boolean 1)]],
        [⟨['b'], 0, [], 32764, false⟩]⟩) 0 0 = 1 ↔
      FQgetvalue (some ⟨1, 1, [[_FQformatDatum false 0 (.boolean 1)]],
        [⟨['b'], 0, [], 32764, false⟩]⟩) 0 0 = none := by
  refine null_exclusivity.2 _ ?_ (by decide) ?_ 0 0 (by decide)
  · intro row hrow cell hcell
    simp only [List.mem_singleton] at hrow
    subst hrow
    simp only [List.mem_singleton] at hcell
    subst hcell
    exact ⟨false, 0, .boolean 1, rfl⟩
  · intro row hrow
    simp only [List.mem_singleton] at hrow
    subst hrow
    decide

lemma hexCharVal_hexDigitChar {n : Nat} (h : n < 16) :
    hexCharVal (hexDigitChar n) = some n := by
  interval_cases n <;> decide

lemma isUpperHexDigit_hexDigitChar {n : Nat} (h : n < 16) :
    isUpperHexDigit (hexDigitChar n) = true := by
  interval_cases n <;> decide

lemma scanHexPair_byteToHexPair {b : Nat} (h : b < 256) :
    scanHexPair (hexDigitChar (b / 16)) (hexDigitChar (b % 16)) = some b := by
  have h1 : b / 16 < 16 := by omega
  have h2 : b % 16 < 16 := Nat.mod_lt _ (by omega)
  unfold scanHexPair
  simp only [hexCharVal_hexDigitChar h1, hexCharVal_hexDigitChar h2]
  congr 1
  omega

lemma deparseDbKeyPairs_flatten {l : List Nat} (h : ∀ b ∈ l, b < 256) :
    deparseDbKeyPairs ((l.map byteToHexPair).flatten) = l := by
  induction l with
  | nil => rfl
  | cons b t ih =>
    rw [List.map_cons, List.flatten_cons]
    show deparseDbKeyPairs (hexDigitChar (b / 16) :: hexDigitChar (b % 16)
      :: (t.map byteToHexPair).flatten) = b :: t
    unfold deparseDbKeyPairs
    rw [scanHexPair_byteToHexPair (h b (by simp))]
    rw [ih (fun x hx => h x (by simp [hx]))]

lemma flatten_map_byteToHexPair_length (l : List Nat) :
    ((l.map byteToHexPair).flatten).length = 2 * l.length := by
  induction l with
  | nil => rfl
  | cons b t ih =>
    rw [List.map_cons, List.flatten_cons, List.length_append, ih]
    show 2 + 2 * t.length = 2 * (t.length + 1)
    omega

/-- C7: formatting any 8-byte sequence as an RDB$DB_KEY string yields
exactly 16 uppercase hexadecimal characters, and parsing that string
back recovers exactly the original bytes. -/
theorem db_key_roundtrip (bs : List Nat) (hlen : bs.length = 8)
    (hbytes : ∀ b ∈ bs, b < 256) :
    (_FQparseDbKey bs).length = 16 ∧
    (∀ ch ∈ _FQparseDbKey bs, isUpperHexDigit ch = true) ∧
    _FQdeparseDbKey (_FQparseDbKey bs) = bs := by
  have htake : bs.take 8 = bs := by
    rw [← hlen, List.take_length]
  have hplen : (_FQparseDbKey bs).length = 16 := by
    unfold _FQparseDbKey
    rw [htake, flatten_map_byteToHexPair_length, hlen]
  refine ⟨hplen, ?_, ?_⟩
  · intro ch hch
    unfold _FQparseDbKey at hch
    rw [htake] at hch
    rw [List.mem_flatten] at hch
    obtain ⟨pair, hpair, hchp⟩ := hch
    rw [List.mem_map] at hpair
    obtain ⟨b, hb, hbp⟩ := hpair
    have hb256 : b < 256 := hbytes b hb
    subst hbp
    unfold byteToHexPair at hchp
    simp only [List.mem_cons, List.not_mem_nil, or_false] at hchp
    rcases hchp with h | h
    · subst h
      exact isUpperHexDigit_hexDigitChar (by omega)
    · subst h
      exact isUpperHexDigit_hexDigitChar (Nat.mod_lt _ (by omega))
  · unfold _FQdeparseDbKey
    rw [List.take_of_length_le (by rw [hplen]; rfl)]
    unfold _FQparseDbKey
    rw [htake]
    exact deparseDbKeyPairs_flatten hbytes

/-- C7 witness: the concrete 8-byte sequence 00 FF 10 01 AB CD EF 12
round-trips through format and parse. -/
theorem db_key_roundtrip_witness :
    (_FQparseDbKey [0, 255, 16, 1, 171, 205, 239, 18]).length = 16 ∧
    (∀ ch ∈ _FQparseDbKey [0, 255, 16, 1, 171, 205, 239, 18],
      isUpperHexDigit ch = true) ∧
    _FQdeparseDbKey (_FQparseDbKey [0, 255, 16, 1, 171, 205, 239, 18])
      = [0, 255, 16, 1, 171, 205, 239, 18] :=
  db_key_roundtrip [0, 255, 16, 1, 171, 205, 239, 18] (by decide) (by decide)

/-- C8 counterexample: `FQgetisnull` on a NULL result pointer returns 1
("pretend it is null"), which is neither -1 nor 0 (false), so the claim
that every listed accessor returns a sentinel from the set
NULL / -1 / false is false as stated. -/
theorem accessor_sentinel_counterexample :
    FQgetisnull (none : Option FBresultModel) 0 0 = 1 ∧
    (1 : Int) ≠ -1 ∧ (1 : Int) ≠ 0 := by
  refine ⟨by decide, by decide, by decide⟩

/-- C8 amended: with a NULL result pointer or an out-of-range row or
column index, every accessor returns its fixed guard value without
reading tuple storage — NULL for `FQgetvalue` and `FQfname`, -1 for
`FQgetlength`, `FQgetdsplen`, `FQftype` (SQL_INVALID_TYPE) and
`FQfformat`, false for `FQfhasNull`, and 1 (null indication) for
`FQgetisnull`. -/
theorem defensive_accessors :
    (∀ (res : Option FBresultModel) (row col : Int),
      cellIndexInvalid res row col →
      FQgetvalue res row col = none ∧ FQgetisnull res row col = 1 ∧
      FQgetlength res row col = -1 ∧ FQgetdsplen res row col = -1) ∧
    (∀ (res : Option FBresultModel) (col : Int),
      colIndexInvalid res col →
      FQfname res col = none ∧ FQftype res col = SQL_INVALID_TYPE ∧
      FQfformat res col = -1 ∧ FQfhasNull res col = false) := by
  constructor
  · intro res row col h
    have hcheck : check_tuple_field_number res row col = false := by
      rcases h with h | ⟨r, hr, hb⟩
      · subst h; rfl
      · subst hr
        show (if row < 0 ∨ row ≥ r.ntups then false
          else if col < 0 ∨ col ≥ r.ncols then false else true) = false
        by_cases h1 : row < 0 ∨ row ≥ r.ntups
        · rw [if_pos h1]
        · rw [if_neg h1]
          rw [if_pos (by
            push_neg at h1
            rcases hb with hb | hb | hb | hb
            · omega
            · omega
            · exact Or.inl hb
            · exact Or.inr hb)]
    refine ⟨?_, ?_, ?_, ?_⟩
    · unfold FQgetvalue
      simp [hcheck]
    · unfold FQgetisnull
      simp [hcheck]
    · unfold FQgetlength
      simp [hcheck]
    · unfold FQgetdsplen
      simp [hcheck]
  · intro res col h
    rcases h with h | ⟨r, hr, hb⟩
    · subst h
      refine ⟨rfl, rfl, rfl, rfl⟩
    · subst hr
      have hb2 : col < 0 ∨ col ≥ r.ncols := hb
      refine ⟨?_, ?_, ?_, ?_⟩
      · show (if col < 0 ∨ col ≥ r.ncols then none
            else
              let d := r.header.getD col.toNat default
              if d.alias_len ≠ 0 then some d.aliasName else some d.desc) = none
        rw [if_pos hb2]
      · show (if col < 0 ∨ col ≥ r.ncols then SQL_INVALID_TYPE
            else (r.header.getD col.toNat default).type) = SQL_INVALID_TYPE
        rw [if_pos hb2]
      · show (if col < 0 ∨ col ≥ r.ncols then -1
            else if FQftype (some r) col = SQL_BLOB then 1 else 0) = -1
        rw [if_pos hb2]
      · show (if col < 0 ∨ col ≥ r.ncols then false
            else (r.header.getD col.toNat default).has_null) = false
        rw [if_pos hb2]

/-- C8 amended witness: a NULL result pointer with indices (0, 0). -/
theorem defensive_accessors_witness :
    (FQgetvalue (none : Option FBresultModel) 0 0 = none ∧
      FQgetisnull (none : Option FBresultModel) 0 0 = 1 ∧
      FQgetlength (none : Option FBresultModel) 0 0 = -1 ∧
      FQgetdsplen (none : Option FBresultModel) 0 0 = -1) ∧
    (FQfname (none : Option FBresultModel) 0 = none ∧
      FQftype (none : Option FBresultModel) 0 = SQL_INVALID_TYPE ∧
      FQfformat (none : Option FBresultModel) 0 = -1 ∧
      FQfhasNull (none : Option FBresultModel) 0 = false) :=
  ⟨defensive_accessors.1 none 0 0 (Or.inl rfl),
   defensive_accessors.2 none 0 (Or.inl rfl)⟩

/-- C9: a connect with a non-NULL database path whose engine attach
fails still returns a non-NULL connection object; its status reports
bad-connection and the engine diagnostic text, assembled from the
`fb_interpret` fragments, is cached and retrievable through
`FQerrorMessage`. -/
theorem attach_failure_contract (db_path : List Char) (attach : AttachOutcome)
    (infoOk : Bool) (hfail : attach.ok = false) :
    FQconnectdbParams (some db_path) attach ≠ none ∧
    FQstatus (FQconnectdbParams (some db_path) attach) infoOk = .connectionBad ∧
    FQerrorMessage (FQconnectdbParams (some db_path) attach)
      = assembleAttachDiag attach.fragments := by
  obtain ⟨ok, frags⟩ := attach
  simp only at hfail
  subst hfail
  refine ⟨?_, ?_, ?_⟩
  · unfold FQconnectdbParams
    simp
  · unfold FQconnectdbParams FQstatus
    simp
  · unfold FQconnectdbParams FQerrorMessage
    simp

/-- C9 witness: attach failure on path "t" with one diagnostic
fragment. -/
theorem attach_failure_contract_witness :
    FQconnectdbParams (some ['t']) ⟨false, [['b']]⟩ ≠ none ∧
    FQstatus (FQconnectdbParams (some ['t']) ⟨false, [['b']]⟩) true = .connectionBad ∧
    FQerrorMessage (FQconnectdbParams (some ['t']) ⟨false, [['b']]⟩)
      = assembleAttachDiag [['b']] :=
  attach_failure_contract ['t'] ⟨false, [['b']]⟩ true rfl

lemma strncasecmp_one_iff (ch : Char) (rest : List Char) (b : Char) :
    strncasecmp 1 (ch :: rest) [b] = 0 ↔ tolowerB ch.toNat = tolowerB b.toNat := by
  show (if tolowerB ch.toNat ≠ tolowerB b.toNat
        then ((tolowerB ch.toNat : Nat) : Int) - ((tolowerB b.toNat : Nat) : Int)
        else strncasecmp 0 rest []) = 0 ↔ _
  by_cases hc : tolowerB ch.toNat = tolowerB b.toNat
  · rw [if_neg (not_not_intro hc)]
    constructor
    · intro _
      exact hc
    · intro _
      rfl
  · rw [if_pos hc]
    constructor
    · intro h
      exfalso
      exact hc (by omega)
    · intro h
      exact absurd h hc

lemma strncasecmp_first_eq {n : Nat} {ch b : Char} {rest bs : List Char}
    (h : strncasecmp (n + 1) (ch :: rest) (b :: bs) = 0) :
    tolowerB ch.toNat = tolowerB b.toNat := by
  by_cases hc : tolowerB ch.toNat = tolowerB b.toNat
  · exact hc
  · exfalso
    have h2 : (if tolowerB ch.toNat ≠ tolowerB b.toNat
        then ((tolowerB ch.toNat : Nat) : Int) - ((tolowerB b.toNat : Nat) : Int)
        else strncasecmp n rest bs) = 0 := h
    rw [if_pos hc] at h2
    exact hc (by omega)

/-- C10: a non-NULL parameter bound to a BOOLEAN column stores true
exactly when its text begins, case-insensitively, with "1" or "t" (which
subsumes "true"); any other text — including everything beginning with
"0", "f" or "false" — silently stores false, and no text makes the bind
fail (the encode is total). -/
theorem boolean_param_encode (v : List Char) :
    encodeBooleanParam v = true ↔
      ∃ ch rest, v = ch :: rest ∧ (ch = '1' ∨ ch = 't' ∨ ch = 'T') := by
  cases v with
  | nil =>
    constructor
    · intro h
      exact absurd h (by decide)
    · rintro ⟨ch, rest, h, _⟩
      exact absurd h (by simp)
  | cons ch rest =>
    have hiff0 : strncasecmp 1 (ch :: rest) "0".toList = 0 ↔ tolowerB ch.toNat = 48 :=
      strncasecmp_one_iff ch rest '0'
    have hiff1 : strncasecmp 1 (ch :: rest) "1".toList = 0 ↔ tolowerB ch.toNat = 49 :=
      strncasecmp_one_iff ch rest '1'
    have hiff4 : strncasecmp 1 (ch :: rest) "f".toList = 0 ↔ tolowerB ch.toNat = 102 :=
      strncasecmp_one_iff ch rest 'f'
    have hiff6 : strncasecmp 1 (ch :: rest) "t".toList = 0 ↔ tolowerB ch.toNat = 116 :=
      strncasecmp_one_iff ch rest 't'
    have hpre3 : strncasecmp 5 (ch :: rest) "false".toList = 0 →
        tolowerB ch.toNat = 102 := by
      intro hc
      have hc2 : strncasecmp (4 + 1) (ch :: rest) ('f' :: "alse".toList) = 0 := hc
      exact strncasecmp_first_eq hc2
    have hpre5 : strncasecmp 4 (ch :: rest) "true".toList = 0 →
        tolowerB ch.toNat = 116 := by
      intro hc
      have hc2 : strncasecmp (3 + 1) (ch :: rest) ('t' :: "rue".toList) = 0 := hc
      exact strncasecmp_first_eq hc2
    have hRHS : (∃ ch2 rest2, ch :: rest = ch2 :: rest2 ∧
        (ch2 = '1' ∨ ch2 = 't' ∨ ch2 = 'T')) ↔ (ch = '1' ∨ ch = 't' ∨ ch = 'T') := by
      constructor
      · rintro ⟨ch2, rest2, heq, hch⟩
        injection heq with e1 e2
        subst e1
        exact hch
      · intro h
        exact ⟨ch, rest, rfl, h⟩
    rw [hRHS]
    have hchar116 : tolowerB ch.toNat = 116 → (ch = 't' ∨ ch = 'T') := by
      intro h
      unfold tolowerB at h
      by_cases hc : 65 ≤ ch.toNat ∧ ch.toNat ≤ 90
      · rw [if_pos hc] at h
        right
        have h84 : ch.toNat = 84 := by omega
        exact char_eq_of_toNat_eq (by rw [h84]; rfl)
      · rw [if_neg hc] at h
        left
        exact char_eq_of_toNat_eq (by rw [h]; rfl)
    have hchar49 : tolowerB ch.toNat = 49 → ch = '1' := by
      intro h
      unfold tolowerB at h
      by_cases hc : 65 ≤ ch.toNat ∧ ch.toNat ≤ 90
      · rw [if_pos hc] at h
        omega
      · rw [if_neg hc] at h
        exact char_eq_of_toNat_eq (by rw [h]; rfl)
    have hval1 : ch = '1' → tolowerB ch.toNat = 49 := by
      intro h; subst h; decide
    have hvalt : ch = 't' → tolowerB ch.toNat = 116 := by
      intro h; subst h; decide
    have hvalT : ch = 'T' → tolowerB ch.toNat = 116 := by
      intro h; subst h; decide
    unfold encodeBooleanParam
    by_cases h48 : tolowerB ch.toNat = 48
    · rw [if_pos (hiff0.mpr h48)]
      constructor
      · intro h
        exact absurd h (by simp)
      · intro h
        exfalso
        rcases h with h | h | h
        · have := hval1 h; omega
        · have := hvalt h; omega
        · have := hvalT h; omega
    · rw [if_neg (fun hc => h48 (hiff0.mp hc))]
      by_cases h49 : tolowerB ch.toNat = 49
      · rw [if_pos (hiff1.mpr h49)]
        constructor
        · intro _
          exact Or.inl (hchar49 h49)
        · intro _
          rfl
      · rw [if_neg (fun hc => h49 (hiff1.mp hc))]
        by_cases h102 : tolowerB ch.toNat = 102
        · by_cases hc3 : strncasecmp 5 (ch :: rest) "false".toList = 0
          · rw [if_pos hc3]
            constructor
            · intro h
              exact absurd h (by simp)
            · intro h
              exfalso
              rcases h with h | h | h
              · have := hval1 h; omega
              · have := hvalt h; omega
              · have := hvalT h; omega
          · rw [if_neg hc3, if_pos (hiff4.mpr h102)]
            constructor
            · intro h
              exact absurd h (by simp)
            · intro h
              exfalso
              rcases h with h | h | h
              · have := hval1 h; omega
              · have := hvalt h; omega
              · have := hvalT h; omega
        · rw [if_neg (fun hc => h102 (hpre3 hc)),
            if_neg (fun hc => h102 (hiff4.mp hc))]
          by_cases h116 : tolowerB ch.toNat = 116
          · by_cases hc5 : strncasecmp 4 (ch :: rest) "true".toList = 0
            · rw [if_pos hc5]
              constructor
              · intro _
                exact Or.inr (hchar116 h116)
              · intro _
                rfl
            · rw [if_neg hc5, if_pos (hiff6.mpr h116)]
              constructor
              · intro _
                exact Or.inr (hchar116 h116)
              · intro _
                rfl
          · rw [if_neg (fun hc => h116 (hpre5 hc)),
              if_neg (fun hc => h116 (hiff6.mp hc))]
            constructor
            · intro h
              exact absurd h (by simp)
            · intro h
              exfalso
              rcases h with h | h | h
              · have := hval1 h; omega
              · have := hvalt h; omega
              · have := hvalT h; omega
